import Mathlib

/-!
# YAHF request-dispatch pipeline: a verification development

This file embeds the core of the YAHF HTTP framework (request normalization,
the middleware chain with the built-in body parser, route registration and
URL-pattern matching, handler invocation, and response serialization) as
executable Lean definitions, and proves the specified properties about them.

Sources of the embedding:
* `src/src/yahf.js` (routing, not-found result, response defaults, the
  top-level error catch) and `src/src/middlewares/bodyParser.js` (content-type
  dispatch and the JSON/text body decoding logic).
* The platform pieces the code delegates to (`JSON.parse`, `JSON.stringify`,
  `URLPattern`) are modelled here directly, since they are not repository code.
  The JSON model carries numbers as exact integers; numeric texts with a
  fraction or exponent are carried as uninterpreted lexemes (IEEE floats are
  out of scope), and raw-control-character fine print of the string grammar is
  relaxed (the model accepts a superset there).
* The snapshot of the repository ships three historical versions of
  `yahf.js`, none of which contains the wiring that the repository's own
  tests, README and `bodyParser.js` require (registering the body parser at
  position 0 of the middleware chain, leaving `payload` unset until the body
  parser runs, serializing JSON payloads to text, defining the plain-text
  content type, and logging caught errors). Those missing pieces are modelled
  from the spec; each such definition says so in its doc comment.
-/

set_option maxHeartbeats 2000000

namespace Yahf

/-! ## JSON values

Model of the values produced by the platform `JSON.parse` and consumed by
`JSON.stringify`. Numbers are exact integers; number texts carrying a
fraction or an exponent are kept as uninterpreted `decimal` lexemes. -/

mutual

inductive Json where
  | null : Json
  | bool (b : Bool) : Json
  | num (n : Int) : Json
  | decimal (lexeme : String) : Json
  | str (s : String) : Json
  | arr (elems : JsonList) : Json
  | obj (fields : JsonFields) : Json

inductive JsonList where
  | nil : JsonList
  | cons (head : Json) (tail : JsonList) : JsonList

inductive JsonFields where
  | nil : JsonFields
  | cons (key : String) (value : Json) (tail : JsonFields) : JsonFields

end

deriving instance DecidableEq for Json, JsonList, JsonFields

mutual

/-- The integer-modelled fragment of the JSON value space: no uninterpreted
`decimal` lexemes anywhere inside. -/
def Json.wf : Json → Bool
  | .decimal _ => false
  | .arr xs => xs.wf
  | .obj fs => fs.wf
  | _ => true

def JsonList.wf : JsonList → Bool
  | .nil => true
  | .cons x t => x.wf && t.wf

def JsonFields.wf : JsonFields → Bool
  | .nil => true
  | .cons _ v t => v.wf && t.wf

end

/-- The opening curly brace character. -/
def braceL : Char := Char.ofNat 123

/-- The closing curly brace character. -/
def braceR : Char := Char.ofNat 125

/-- Escaping of one character inside a JSON string literal, as
`JSON.stringify` does for the quote, the backslash and the common control
characters (the `\uXXXX` form for other control characters is not modelled). -/
def escapeChar (c : Char) : List Char :=
  if c = '"' then ['\\', '"']
  else if c = '\\' then ['\\', '\\']
  else if c = '\n' then ['\\', 'n']
  else if c = '\t' then ['\\', 't']
  else if c = '\r' then ['\\', 'r']
  else [c]

/-- Escape a whole character sequence. -/
def escapeChars : List Char → List Char
  | [] => []
  | c :: cs => escapeChar c ++ escapeChars cs

/-- The decimal digit characters of a digit value below ten. -/
def digitChar : Nat → Char
  | 0 => '0' | 1 => '1' | 2 => '2' | 3 => '3' | 4 => '4'
  | 5 => '5' | 6 => '6' | 7 => '7' | 8 => '8' | 9 => '9'
  | _ => '0'

/-- Decimal notation of a natural number, most significant digit first. -/
def natRepr (n : Nat) : List Char :=
  if n = 0 then ['0'] else (Nat.digits 10 n).reverse.map digitChar

/-- Decimal notation of an integer, as `JSON.stringify` prints it. -/
def intRepr : Int → List Char
  | .ofNat n => natRepr n
  | .negSucc m => '-' :: natRepr (m + 1)

mutual

/-- Model of `JSON.stringify` on a JSON value, producing the character
sequence of its canonical (whitespace-free) textual notation. -/
def Json.stringifyChars : Json → List Char
  | .null => ("null" : String).data
  | .bool true => ("true" : String).data
  | .bool false => ("false" : String).data
  | .num n => intRepr n
  | .decimal s => s.data
  | .str s => '"' :: (escapeChars s.data ++ ['"'])
  | .arr xs => '[' :: (xs.stringifyChars ++ [']'])
  | .obj fs => braceL :: (fs.stringifyChars ++ [braceR])

/-- Comma-separated notation of the elements of a JSON array. -/
def JsonList.stringifyChars : JsonList → List Char
  | .nil => []
  | .cons x .nil => x.stringifyChars
  | .cons x (.cons y t) =>
      x.stringifyChars ++ ',' :: JsonList.stringifyChars (.cons y t)

/-- Comma-separated notation of the members of a JSON object. -/
def JsonFields.stringifyChars : JsonFields → List Char
  | .nil => []
  | .cons k v .nil =>
      '"' :: (escapeChars k.data ++ ('"' :: ':' :: v.stringifyChars))
  | .cons k v (.cons k2 v2 t) =>
      '"' :: (escapeChars k.data ++ ('"' :: ':' :: v.stringifyChars))
        ++ ',' :: JsonFields.stringifyChars (.cons k2 v2 t)

end

/-- Model of `JSON.stringify`: the textual JSON notation of a value. -/
def jsonStringify (j : Json) : String := String.mk j.stringifyChars

/-! ## JSON parser

Model of the platform `JSON.parse`: a recursive-descent parser over the
character list, structurally recursive on a fuel counter. The fuel passed at
the top level (input length plus one) is enough for every nesting the input
can express, so the fuel guard is unreachable on well-formed inputs. -/

/-- JSON insignificant whitespace. -/
def isWsChar (c : Char) : Bool := c = ' ' || c = '\n' || c = '\t' || c = '\r'

/-- Drop leading JSON whitespace. -/
def skipWs : List Char → List Char
  | [] => []
  | c :: cs => if isWsChar c then skipWs cs else c :: cs

/-- Decimal digit test. -/
def isDigitChar (c : Char) : Bool := '0' ≤ c && c ≤ '9'

/-- Value of a decimal digit character. -/
def digitVal (c : Char) : Nat := c.toNat - 48

/-- Split the longest leading run of decimal digits from the input. -/
def takeDigits : List Char → List Char × List Char
  | [] => ([], [])
  | c :: cs =>
    if isDigitChar c then
      let r := takeDigits cs
      (c :: r.1, r.2)
    else ([], c :: cs)

/-- Numeric value of a digit run, most significant digit first. -/
def digitsToNat (ds : List Char) : Nat :=
  ds.foldl (fun acc c => 10 * acc + digitVal c) 0

/-- Hexadecimal digit test. -/
def isHexDigit (c : Char) : Bool :=
  isDigitChar c || ('a' ≤ c && c ≤ 'f') || ('A' ≤ c && c ≤ 'F')

/-- Value of a hexadecimal digit character. -/
def hexVal (c : Char) : Nat :=
  if isDigitChar c then digitVal c
  else if 'a' ≤ c then c.toNat - 87
  else c.toNat - 55

/-- Decode a single-character JSON string escape. -/
def unescapeChar (c : Char) : Char :=
  if c = 'n' then '\n'
  else if c = 't' then '\t'
  else if c = 'r' then '\r'
  else if c = 'b' then Char.ofNat 8
  else if c = 'f' then Char.ofNat 12
  else c

/-- Decode the four hexadecimal digits of a `\uXXXX` escape. -/
def parseHex4 (cs : List Char) : Except String (Char × List Char) :=
  match cs with
  | a :: b :: c :: d :: rest =>
    if isHexDigit a && isHexDigit b && isHexDigit c && isHexDigit d then
      .ok (Char.ofNat (4096 * hexVal a + 256 * hexVal b + 16 * hexVal c + hexVal d), rest)
    else .error "Bad Unicode escape in JSON"
  | _ => .error "Bad Unicode escape in JSON"

/-- Parse the body of a JSON string literal, after the opening quote, up to
and including the closing quote. Returns the decoded characters and the
remaining input. Structurally recursive on a fuel counter that callers set
above the input length; each step consumes at least one character, so the
fuel guard is unreachable. -/
def parseStringChars : Nat → List Char → Except String (List Char × List Char)
  | 0, _ => .error "Unterminated string in JSON"
  | fuel + 1, cs =>
    match cs with
    | [] => .error "Unterminated string in JSON"
    | c :: cs1 =>
      if c = '"' then .ok ([], cs1)
      else if c = '\\' then
        match cs1 with
        | [] => .error "Unterminated string in JSON"
        | e :: cs2 =>
          if e = 'u' then
            match parseHex4 cs2 with
            | .error msg => .error msg
            | .ok (u, cs3) =>
              match parseStringChars fuel cs3 with
              | .ok (s, rest) => .ok (u :: s, rest)
              | .error msg => .error msg
          else
            match parseStringChars fuel cs2 with
            | .ok (s, rest) => .ok (unescapeChar e :: s, rest)
            | .error msg => .error msg
      else
        match parseStringChars fuel cs1 with
        | .ok (s, rest) => .ok (c :: s, rest)
        | .error msg => .error msg

/-- Consume an optional exponent part of a JSON number. Returns the consumed
characters and the remaining input. -/
def expTail : List Char → List Char × List Char
  | [] => ([], [])
  | c :: r =>
    if c = 'e' ∨ c = 'E' then
      match r with
      | [] => ([c], [])
      | s :: r2 =>
        if s = '+' ∨ s = '-' then
          let t := takeDigits r2
          (c :: s :: t.1, t.2)
        else
          let t := takeDigits r
          (c :: t.1, t.2)
    else ([], c :: r)

/-- Consume an optional fraction-and-exponent part of a JSON number. -/
def numTail (cs : List Char) : List Char × List Char :=
  match cs with
  | [] => ([], [])
  | c :: r =>
    if c = '.' then
      let t := takeDigits r
      let e := expTail t.2
      ('.' :: (t.1 ++ e.1), e.2)
    else expTail cs

/-- Parse the digits of a JSON number after the optional sign. A pure
integer text yields `Json.num`; a text with a fraction or exponent part is
kept as a `Json.decimal` lexeme. -/
def parseNumCore (neg : Bool) (cs : List Char) : Except String (Json × List Char) :=
  let t := takeDigits cs
  if t.1 = [] then .error "Invalid number in JSON"
  else
    let nt := numTail t.2
    if nt.1 = [] then
      let v : Int := Int.ofNat (digitsToNat t.1)
      .ok (.num (if neg then -v else v), t.2)
    else
      .ok (.decimal (String.mk ((if neg then ['-'] else []) ++ t.1 ++ nt.1)), nt.2)

/-- Parse a JSON number, sign included. -/
def parseNumber (cs : List Char) : Except String (Json × List Char) :=
  match cs with
  | [] => .error "Invalid number in JSON"
  | c :: rest =>
    if c = '-' then parseNumCore true rest
    else parseNumCore false (c :: rest)

mutual

/-- Parse one JSON value. The input must have its leading whitespace
removed by the caller already. -/
def parseValue : Nat → List Char → Except String (Json × List Char)
  | 0, _ => .error "JSON nesting too deep"
  | fuel + 1, cs =>
    match cs with
    | [] => .error "Unexpected end of JSON input"
    | c :: rest =>
      if c = '"' then
        match parseStringChars (rest.length + 1) rest with
        | .ok (s, r) => .ok (.str (String.mk s), r)
        | .error msg => .error msg
      else if c = '[' then parseArrBody fuel (skipWs rest)
      else if c = braceL then parseObjBody fuel (skipWs rest)
      else if c = 't' then
        match rest with
        | 'r' :: 'u' :: 'e' :: r => .ok (.bool true, r)
        | _ => .error "Unexpected token in JSON"
      else if c = 'f' then
        match rest with
        | 'a' :: 'l' :: 's' :: 'e' :: r => .ok (.bool false, r)
        | _ => .error "Unexpected token in JSON"
      else if c = 'n' then
        match rest with
        | 'u' :: 'l' :: 'l' :: r => .ok (.null, r)
        | _ => .error "Unexpected token in JSON"
      else if c = '-' || isDigitChar c then parseNumber (c :: rest)
      else .error "Unexpected token in JSON"

/-- Parse the inside of a JSON array, after the opening bracket and
whitespace: either the immediate closing bracket or a first element
followed by the remaining elements. -/
def parseArrBody : Nat → List Char → Except String (Json × List Char)
  | 0, _ => .error "JSON nesting too deep"
  | fuel + 1, cs =>
    match cs with
    | [] => .error "Unexpected end of JSON input"
    | c :: r =>
      if c = ']' then .ok (.arr .nil, r)
      else
        match parseValue fuel (c :: r) with
        | .error msg => .error msg
        | .ok (v, r2) =>
          match parseArrTail fuel r2 with
          | .error msg => .error msg
          | .ok (t, r3) => .ok (.arr (.cons v t), r3)

/-- Parse the remainder of a JSON array after an element: a comma and the
next element, repeatedly, until the closing bracket. -/
def parseArrTail : Nat → List Char → Except String (JsonList × List Char)
  | 0, _ => .error "JSON nesting too deep"
  | fuel + 1, cs =>
    match skipWs cs with
    | [] => .error "Unexpected end of JSON input"
    | c :: r =>
      if c = ']' then .ok (.nil, r)
      else if c = ',' then
        match parseValue fuel (skipWs r) with
        | .error msg => .error msg
        | .ok (v, r2) =>
          match parseArrTail fuel r2 with
          | .error msg => .error msg
          | .ok (t, r3) => .ok (.cons v t, r3)
      else .error "Expected comma or closing bracket in JSON array"

/-- Parse one key-value member of a JSON object, starting at the opening
quote of the key. -/
def parseMember : Nat → List Char → Except String (String × Json × List Char)
  | 0, _ => .error "JSON nesting too deep"
  | fuel + 1, cs =>
    match cs with
    | [] => .error "Unexpected end of JSON input"
    | c :: r =>
      if c = '"' then
        match parseStringChars (r.length + 1) r with
        | .error msg => .error msg
        | .ok (k, r2) =>
          match skipWs r2 with
          | [] => .error "Unexpected end of JSON input"
          | c2 :: r3 =>
            if c2 = ':' then
              match parseValue fuel (skipWs r3) with
              | .error msg => .error msg
              | .ok (v, r4) => .ok (String.mk k, v, r4)
            else .error "Expected colon in JSON object"
      else .error "Expected string key in JSON object"

/-- Parse the remainder of a JSON object after a member: a comma and the
next member, repeatedly, until the closing brace. -/
def parseObjTail : Nat → List Char → Except String (JsonFields × List Char)
  | 0, _ => .error "JSON nesting too deep"
  | fuel + 1, cs =>
    match skipWs cs with
    | [] => .error "Unexpected end of JSON input"
    | c :: r =>
      if c = braceR then .ok (.nil, r)
      else if c = ',' then
        match parseMember fuel (skipWs r) with
        | .error msg => .error msg
        | .ok (k, v, r2) =>
          match parseObjTail fuel r2 with
          | .error msg => .error msg
          | .ok (t, r3) => .ok (.cons k v t, r3)
      else .error "Expected comma or closing brace in JSON object"

/-- Parse the inside of a JSON object, after the opening brace and
whitespace: either the immediate closing brace or a first member followed
by the remaining members. -/
def parseObjBody : Nat → List Char → Except String (Json × List Char)
  | 0, _ => .error "JSON nesting too deep"
  | fuel + 1, cs =>
    match cs with
    | [] => .error "Unexpected end of JSON input"
    | c :: r =>
      if c = braceR then .ok (.obj .nil, r)
      else
        match parseMember fuel (c :: r) with
        | .error msg => .error msg
        | .ok (k, v, r2) =>
          match parseObjTail fuel r2 with
          | .error msg => .error msg
          | .ok (t, r3) => .ok (.obj (.cons k v t), r3)

end

/-- Model of `JSON.parse`: parse a complete JSON text, allowing surrounding
whitespace and nothing else around the single top-level value. -/
def jsonParse (s : String) : Except String Json :=
  match parseValue (s.data.length + 1) (skipWs s.data) with
  | .error msg => .error msg
  | .ok (v, rest) =>
    match skipWs rest with
    | [] => .ok v
    | _ => .error "Unexpected trailing characters in JSON"

/-! ## Path pattern matcher

Model of the platform `URLPattern` as the repository uses it: patterns are
built from a pathname template only (`new URLPattern({ pathname })` in
`YAHF.addHandler`), and templates consist of literal segments and `:name`
parameter segments — the only forms the repository and its spec use. A
parameter segment matches exactly one non-empty path segment; `test` is an
exact match over the whole pathname; `exec` yields the named groups. -/

/-- One compiled segment of a pathname template. -/
inductive Segment where
  | lit (s : String)
  | param (name : String)
deriving DecidableEq

/-- Prepend a character to the first segment of a split result. -/
def consHead (c : Char) : List String → List String
  | [] => [String.mk [c]]
  | s :: rest => String.mk (c :: s.data) :: rest

/-- Split a character sequence on the slash separators; always returns at
least one (possibly empty) segment. -/
def splitSegs : List Char → List String
  | [] => [""]
  | c :: cs =>
    if c = '/' then "" :: splitSegs cs
    else consHead c (splitSegs cs)

/-- Rejoin segments with slash separators; the left inverse of `splitSegs`. -/
def joinSegs : List String → List Char
  | [] => []
  | [s] => s.data
  | s :: s2 :: rest => s.data ++ '/' :: joinSegs (s2 :: rest)

/-- Drop the single leading slash of a normalized pathname. -/
def dropSlash : List Char → List Char
  | [] => []
  | c :: cs => if c = '/' then cs else c :: cs

/-- Compile one template segment: a leading colon marks a named parameter. -/
def toSegment (s : String) : Segment :=
  match s.data with
  | ':' :: name => .param (String.mk name)
  | _ => .lit s

/-- Compile a pathname template into its segment list. -/
def compilePattern (template : String) : List Segment :=
  (splitSegs (dropSlash template.data)).map toSegment

/-- Whether one compiled segment matches one concrete path segment: a
literal matches only itself, a parameter matches any non-empty segment. -/
def segMatches : Segment → String → Bool
  | .lit s, seg => s == seg
  | .param _, seg => !(seg == "")

/-- Whether a segment list matches a path segment list, position by
position, requiring equal length (no prefix matching). -/
def segsMatch : List Segment → List String → Bool
  | [], [] => true
  | p :: ps, s :: ss => segMatches p s && segsMatch ps ss
  | _, _ => false

/-- Model of `URLPattern.test` on the pathname: exact full-path matching. -/
def patternTest (pat : List Segment) (path : String) : Bool :=
  segsMatch pat (splitSegs (dropSlash path.data))

/-- The named groups a successful match produces, in template order. -/
def extractGroups : List Segment → List String → List (String × String)
  | .param n :: ps, s :: ss => (n, s) :: extractGroups ps ss
  | .lit _ :: ps, _ :: ss => extractGroups ps ss
  | _, _ => []

/-- Model of `URLPattern.exec(path).pathname.groups`: the parameter-name to
matched-segment mapping on success, nothing on failure. -/
def patternExec (pat : List Segment) (path : String) : Option (List (String × String)) :=
  if patternTest pat path then
    some (extractGroups pat (splitSegs (dropSlash path.data)))
  else none

/-- The parameter names of a compiled pattern, in template order. -/
def paramNames (pat : List Segment) : List String :=
  pat.filterMap fun seg =>
    match seg with
    | .param n => some n
    | .lit _ => none

/-- Substitute the group values back into the template, consuming the group
list left to right; literal segments stand for themselves. -/
def substSegs : List Segment → List (String × String) → List String
  | [], _ => []
  | .lit s :: ps, g => s :: substSegs ps g
  | .param _ :: ps, [] => "" :: substSegs ps []
  | .param _ :: ps, v :: g => v.2 :: substSegs ps g

/-! ## The dispatcher

Embedding of `src/src/yahf.js` and `src/src/middlewares/bodyParser.js`.
Asynchrony is modelled by sequential composition (`await` points become the
sequencing of the `Except` results); the request body stream is modelled as
the already-accumulated body text (the spec's lossless streaming discipline
for the decoder is assumed, not modelled). -/

/-- Whether a string starts with a slash, as the JS `path.startsWith("/")`
in `YAHF.#normalizePath` tests. -/
def startsWithSlash (s : String) : Bool :=
  match s.data with
  | c :: _ => c = '/'
  | [] => false

/-- From `src/src/yahf.js`, `YAHF.#normalizePath`: ensure a leading slash. -/
def normalizePath (path : String) : String :=
  if startsWithSlash path then path else "/" ++ path

/-- From `src/src/yahf.js` lines 13-15: the JSON content type. -/
def CONTENT_TYPES.JSON : String := "application/json"

/-- Modelled from the spec: the plain-text content type (spec 4.2). The
body parser under `src/` dispatches on `CONTENT_TYPES.TEXT`, and the
repository's README and tests require `text/plain` to select the text
branch, but the snapshot's historical `yahf.js` exports only the JSON
entry, so this member of the current `CONTENT_TYPES` is missing from the
snapshot and is taken from the spec. -/
def CONTENT_TYPES.TEXT : String := "text/plain"

/-- The request-context record threaded through the pipeline (spec 3).
`body` carries the accumulated body text the parsers read from the request
stream; `query` is omitted (no verified property touches it). -/
structure Context where
  path : String
  method : String
  headers : List (String × String)
  body : String
  payload : Option Json := none
  groups : Option (List (String × String)) := none
deriving DecidableEq

/-- Lookup of a (lower-cased) header name in the header list, as the JS
index access on the header object does. -/
def getHeader (headers : List (String × String)) (name : String) : Option String :=
  match headers.find? (fun kv => kv.1 == name) with
  | some kv => some kv.2
  | none => none

/-- From `src/src/middlewares/bodyParser.js`, `BodyParser.#parseText`:
assign the accumulated body text verbatim to the payload when non-empty,
leave the payload untouched when empty. -/
def BodyParser.parseText (data : Context) : Except String Context :=
  if data.body == "" then .ok data
  else .ok { data with payload := some (.str data.body) }

/-- From `src/src/middlewares/bodyParser.js`, `BodyParser.#parseJSON`:
parse the accumulated body text as JSON and assign the parsed value to the
payload when the text is non-empty, leave the payload untouched when it is
empty; a parse failure rejects with the parse error. -/
def BodyParser.parseJSON (data : Context) : Except String Context :=
  if data.body == "" then .ok data
  else
    match jsonParse data.body with
    | .ok v => .ok { data with payload := some v }
    | .error e => .error e

/-- From `src/src/middlewares/bodyParser.js`, `BodyParser.#parse`: pick the
parser from the content-type header, defaulting a missing (or empty, which
is falsy in JS) header to the literal `plain/text`, which falls through to
the JSON branch of the switch, as does every other unknown content type. -/
def BodyParser.parse (data : Context) : Except String Context :=
  let contentType :=
    match getHeader data.headers "content-type" with
    | none => "plain/text"
    | some s => if s == "" then "plain/text" else s
  if contentType == CONTENT_TYPES.TEXT then BodyParser.parseText data
  else BodyParser.parseJSON data

/-- A middleware: mutates the request context or throws (spec 3). -/
abbrev Middleware := Context → Except String Context

/-- The raw request delivered by the host listener: URL already parsed into
the pathname, plus method, headers and the body text. -/
structure Request where
  path : String
  method : String
  headers : List (String × String)
  body : String

/-- From `src/src/yahf.js`, `YAHF.#requestInit`, building the request
context. Modelled from the spec for the payload initialization: in the
current pipeline the payload stays unset until the body parser runs (spec
4.2 and README; the snapshot's historical `#requestInit` instead consumed
the body itself). -/
def requestInit (req : Request) : Context :=
  { path := normalizePath req.path
    method := req.method
    headers := req.headers
    body := req.body
    payload := none
    groups := none }

/-- The result a route handler returns (spec 3): every field optional. -/
structure HandlerResult where
  statusCode : Option Int := none
  contentType : Option String := none
  headers : List (String × String) := []
  payload : Option Json := none

/-- A route handler: may be asynchronous and may throw; may also resolve
with no result at all (undefined), hence the inner `Option`. -/
abbrev Handler := Context → Except String (Option HandlerResult)

/-- From `src/src/yahf.js`: one registered route, a compiled pattern plus
the handler. -/
structure RouteEntry where
  pattern : List Segment
  handler : Handler

/-- The dispatcher state: routes grouped by upper-cased method, and the
middleware chain. -/
structure Server where
  routes : List (String × List RouteEntry)
  middlewares : List Middleware

/-- From `src/src/yahf.js` lines 71-76: the canonical not-found result. -/
def notFound : HandlerResult :=
  { statusCode := some 404, contentType := some CONTENT_TYPES.JSON }

/-- The route list registered under a method key, empty when absent, as
the JS `this.#routes[method] || []` reads. -/
def lookupRoutes (rs : List (String × List RouteEntry)) (m : String) : List RouteEntry :=
  match rs with
  | [] => []
  | (k, u) :: rest => if k == m then u else lookupRoutes rest m

/-- Replace (or create) the route list registered under a method key, as
the JS assignment `this.#routes[method] = ...` writes. -/
def setRoutes (rs : List (String × List RouteEntry)) (m : String) (v : List RouteEntry) :
    List (String × List RouteEntry) :=
  match rs with
  | [] => [(m, v)]
  | (k, u) :: rest => if k == m then (m, v) :: rest else (k, u) :: setRoutes rest m v

/-- From `src/src/yahf.js`, `YAHF.useMiddleware`: append to the chain. -/
def useMiddleware (srv : Server) (m : Middleware) : Server :=
  { srv with middlewares := srv.middlewares ++ [m] }

/-- ASCII upper-casing of one character, as `String.prototype.toUpperCase`
acts on the ASCII method names the framework is used with. -/
def upperChar (c : Char) : Char :=
  if 'a' ≤ c ∧ c ≤ 'z' then Char.ofNat (c.toNat - 32) else c

/-- Upper-case a string character by character
(`String.prototype.toUpperCase` on ASCII input). -/
def upperStr (s : String) : String :=
  String.mk (s.data.map upperChar)

/-- From `src/src/yahf.js` lines 238-245, `YAHF.addHandler`: upper-case the
method, normalize the path, compile the pattern, and insert the entry at
the front of that method's list (`unshift`). -/
def addHandler (srv : Server) (path method : String) (handler : Handler) : Server :=
  let M := upperStr method
  { srv with
    routes := setRoutes srv.routes M
      (⟨compilePattern (normalizePath path), handler⟩ :: lookupRoutes srv.routes M) }

/-- The initial dispatcher state built by the constructor. Modelled from
the spec for the middleware content: the built-in body parser occupies
position 0 of the chain from construction (spec 4.3 and README; the
snapshot's historical constructor predates the body parser wiring). -/
def initServer : Server :=
  { routes := [], middlewares := [BodyParser.parse] }

/-- One registration call on the public surface. -/
inductive ServerOp where
  | mw (m : Middleware)
  | route (path method : String) (h : Handler)

/-- Apply one registration call. -/
def applyOp (srv : Server) : ServerOp → Server
  | .mw m => useMiddleware srv m
  | .route p mth h => addHandler srv p mth h

/-- Apply a sequence of registration calls, oldest first. -/
def applyOps (srv : Server) (ops : List ServerOp) : Server :=
  ops.foldl applyOp srv

/-- The user middlewares among a sequence of registration calls, in
registration order. -/
def userMiddlewares : List ServerOp → List Middleware
  | [] => []
  | .mw m :: rest => m :: userMiddlewares rest
  | .route _ _ _ :: rest => userMiddlewares rest

/-- From `src/src/yahf.js` lines 153-155: run the middleware chain in
order, awaiting each one fully; a thrown error aborts the rest. -/
def runMiddlewares : List Middleware → Context → Except String Context
  | [], data => .ok data
  | m :: rest, data =>
    match m data with
    | .error e => .error e
    | .ok d => runMiddlewares rest d

/-- From `src/src/yahf.js` lines 157-158: the routes of the request method
(empty when none), scanned front to back for the first matching pattern. -/
def findRoute (srv : Server) (data : Context) : Option RouteEntry :=
  (lookupRoutes srv.routes data.method).find? fun rt => patternTest rt.pattern data.path

/-- From `src/src/yahf.js` lines 187-195, `YAHF.#getHandlerResponse`: the
not-found result when no route matched, otherwise the handler applied to
the context extended with the extracted groups. -/
def getHandlerResponse (route : Option RouteEntry) (data : Context) :
    Except String (Option HandlerResult) :=
  match route with
  | none => .ok (some notFound)
  | some rt => rt.handler { data with groups := patternExec rt.pattern data.path }

/-- The wire-level response: status, content-type header, further headers,
and the body text. -/
structure Response where
  statusCode : Int
  contentType : Option String
  headers : List (String × String)
  body : String
deriving DecidableEq

/-- From `src/src/yahf.js` line 163: the JS `statusCode || 200` default —
an absent, null or zero (falsy) status becomes 200. -/
def statusOrDefault : Option Int → Int
  | none => 200
  | some n => if n == 0 then 200 else n

/-- From `src/src/yahf.js` lines 164-167: the JS `contentType ||
CONTENT_TYPES.JSON` default — an absent, null or empty (falsy) content
type becomes the JSON content type. -/
def contentTypeOrDefault : Option String → String
  | none => CONTENT_TYPES.JSON
  | some s => if s == "" then CONTENT_TYPES.JSON else s

/-- The status code of an optional handler result, as the optional
chaining `handlerResult?.statusCode` reads it. -/
def statusCodeOf : Option HandlerResult → Option Int
  | none => none
  | some r => r.statusCode

/-- The content type of an optional handler result. -/
def contentTypeOf : Option HandlerResult → Option String
  | none => none
  | some r => r.contentType

/-- The extra headers of an optional handler result. -/
def headersOf : Option HandlerResult → List (String × String)
  | none => []
  | some r => r.headers

/-- The payload of an optional handler result. -/
def payloadOf : Option HandlerResult → Option Json
  | none => none
  | some r => r.payload

/-- ASCII lower-casing of one character, as Node lower-cases header names. -/
def lowerChar (c : Char) : Char :=
  if 'A' ≤ c ∧ c ≤ 'Z' then Char.ofNat (c.toNat + 32) else c

/-- Lower-case a string character by character (header-name comparison). -/
def lowerStr (s : String) : String :=
  String.mk (s.data.map lowerChar)

/-- Node's `response.setHeader(k, v)`: header names compare
case-insensitively and a later write overwrites an earlier one in place
(keeping its position and taking the new name's casing). -/
def setHeader (hs : List (String × String)) (k v : String) : List (String × String) :=
  match hs with
  | [] => [(k, v)]
  | (k0, v0) :: rest =>
    if lowerStr k0 == lowerStr k then (k, v) :: rest
    else (k0, v0) :: setHeader rest k v

/-- The `for (const key in handlerResult?.headers)` loop of
`src/src/yahf.js` lines 170-172: each handler header applied through
`setHeader`, in order. -/
def applyHeaders (hs : List (String × String)) (kvs : List (String × String)) :
    List (String × String) :=
  kvs.foldl (fun acc kv => setHeader acc kv.1 kv.2) hs

/-- The value emitted for a header name (case-insensitive), if any. -/
def headerValue (hs : List (String × String)) (k : String) : Option String :=
  match hs with
  | [] => none
  | (k0, v0) :: rest =>
    if lowerStr k0 == lowerStr k then some v0 else headerValue rest k

/-- The emitted headers other than the given name (case-insensitive). -/
def dropHeader (hs : List (String × String)) (k : String) : List (String × String) :=
  match hs with
  | [] => []
  | (k0, v0) :: rest =>
    if lowerStr k0 == lowerStr k then dropHeader rest k
    else (k0, v0) :: dropHeader rest k

/-- The response serializer. Defaults and header writes are from
`src/src/yahf.js` lines 163-172: the status, then
`setHeader("Content-Type", ...)` with the truthy default, then every
handler header applied through `setHeader` — case-insensitive, last write
wins — so a handler header itself named content-type overwrites the
default. In the result, `contentType` is the finally emitted content-type
header and `headers` are the other emitted headers. The payload encoding
is modelled from the spec (4.6): when the effective content type is JSON
the payload is serialized to its textual JSON representation, with an
absent payload serializing to an empty body (`JSON.stringify(undefined)`
is undefined, and ending the response with undefined writes nothing); for
any other content type the payload is written verbatim and must already be
a string (the snapshot's historical serializer wrote every payload
verbatim, which its own tests reject). -/
def serializeResponse (hr : Option HandlerResult) : Except String Response :=
  let status := statusOrDefault (statusCodeOf hr)
  let ct := contentTypeOrDefault (contentTypeOf hr)
  let emitted := applyHeaders [("Content-Type", ct)] (headersOf hr)
  if ct == CONTENT_TYPES.JSON then
    .ok ⟨status, headerValue emitted "content-type", dropHeader emitted "content-type",
      match payloadOf hr with
      | none => ""
      | some j => jsonStringify j⟩
  else
    match payloadOf hr with
    | none => .ok ⟨status, headerValue emitted "content-type", dropHeader emitted "content-type", ""⟩
    | some (.str s) => .ok ⟨status, headerValue emitted "content-type", dropHeader emitted "content-type", s⟩
    | some _ => .error "Payload must be a string for a non-JSON content type"

/-- The uniform error response of the top-level catch in
`src/src/yahf.js` lines 174-177: status 500, the error message as the
body, and no content-type header (nothing was set before the failure in
every caught stage). -/
def errorResponse (msg : String) : Response :=
  { statusCode := 500, contentType := none, headers := [], body := msg }

/-- The observable outcome of handling one request: the single terminal
response, whether a user route handler was invoked, and the errors routed
to the configured logger (the logging is modelled from the spec, 7; the
snapshot's historical catch block predates it). -/
structure RunResult where
  response : Response
  handlerCalled : Bool
  loggedErrors : List String
deriving DecidableEq

/-- From `src/src/yahf.js` lines 150-178, `YAHF.#handleRequest`: normalize
the request, run the middleware chain, find the route, invoke the handler
(or produce the not-found result), serialize; any error caught at this top
level becomes the uniform 500 response. Nothing is retried and exactly one
terminal response is produced, by construction. -/
def handleRequest (srv : Server) (req : Request) : RunResult :=
  match runMiddlewares srv.middlewares (requestInit req) with
  | .error e => ⟨errorResponse e, false, [e]⟩
  | .ok data =>
    let route := findRoute srv data
    match getHandlerResponse route data with
    | .error e => ⟨errorResponse e, route.isSome, [e]⟩
    | .ok hr =>
      match serializeResponse hr with
      | .ok resp => ⟨resp, route.isSome, []⟩
      | .error e => ⟨errorResponse e, route.isSome, [e]⟩

/-! ## Auxiliary definitions for the statements and proofs -/

/-- Continuation guard for the parser lemmas: the characters that may
legally follow a serialized value inside a larger serialized value (or
nothing at all). None of them is a digit, a dot or an exponent letter, so
the number lexer cannot run past a value boundary. -/
def restOk : List Char → Prop
  | [] => True
  | c :: _ => c = ',' ∨ c = ']' ∨ c = braceR

/-- The serialized remainder of a JSON array after its first element: for
each further element a comma and the element, in order. -/
def listTailChars : JsonList → List Char
  | .nil => []
  | .cons y t => ',' :: (y.stringifyChars ++ listTailChars t)

/-- The serialized form of one JSON object member. -/
def memberChars (k : String) (v : Json) : List Char :=
  '"' :: (escapeChars k.data ++ ('"' :: ':' :: v.stringifyChars))

/-- The serialized remainder of a JSON object after its first member: for
each further member a comma and the member, in order. -/
def fieldsTailChars : JsonFields → List Char
  | .nil => []
  | .cons k v t => ',' :: (memberChars k v ++ fieldsTailChars t)

/-- A template whose segments are all literal (no parameter segments). -/
def litOnly (pat : List Segment) : Prop :=
  paramNames pat = []

/-! ## Lemmas: decimal digit runs -/

theorem digitVal_digitChar (d : Nat) (h : d < 10) : digitVal (digitChar d) = d := by
  interval_cases d <;> rfl

theorem isDigitChar_digitChar (d : Nat) (h : d < 10) : isDigitChar (digitChar d) = true := by
  interval_cases d <;> rfl

theorem natRepr_all_digits (n : Nat) : ∀ c ∈ natRepr n, isDigitChar c = true := by
  intro c hc
  unfold natRepr at hc
  by_cases h : n = 0
  · simp [h] at hc
    subst hc; rfl
  · rw [if_neg h] at hc
    rw [List.mem_map] at hc
    obtain ⟨d, hd, rfl⟩ := hc
    rw [List.mem_reverse] at hd
    exact isDigitChar_digitChar d (Nat.digits_lt_base (by norm_num) hd)

theorem natRepr_ne_nil (n : Nat) : natRepr n ≠ [] := by
  unfold natRepr
  by_cases h : n = 0
  · simp [h]
  · rw [if_neg h]
    simp [Nat.digits_ne_nil_iff_ne_zero, h]

theorem takeDigits_append (ds rest : List Char) (hds : ∀ c ∈ ds, isDigitChar c = true)
    (hrest : restOk rest) : takeDigits (ds ++ rest) = (ds, rest) := by
  induction ds with
  | nil =>
    rw [List.nil_append]
    cases rest with
    | nil => rfl
    | cons c r =>
      rcases hrest with h | h | h <;> subst h <;> rfl
  | cons c cs ih =>
    have hc : isDigitChar c = true := hds c (by simp)
    rw [List.cons_append]
    simp only [takeDigits, hc, if_true]
    rw [ih (fun x hx => hds x (by simp [hx]))]

theorem numTail_restOk (rest : List Char) (h : restOk rest) : numTail rest = ([], rest) := by
  cases rest with
  | nil => rfl
  | cons c r => rcases h with h | h | h <;> subst h <;> rfl

theorem foldl_digits_key (L : List Nat) (hL : ∀ d ∈ L, d < 10) : ∀ (acc : Nat),
    List.foldl (fun a c => 10 * a + digitVal c) acc ((L.reverse).map digitChar)
      = acc * 10 ^ L.length + Nat.ofDigits 10 L := by
  induction L with
  | nil => intro acc; simp [Nat.ofDigits_nil]
  | cons d L ih =>
    intro acc
    have hd : d < 10 := hL d (by simp)
    have hL' : ∀ x ∈ L, x < 10 := fun x hx => hL x (by simp [hx])
    rw [List.reverse_cons, List.map_append, List.foldl_append, ih hL']
    simp only [List.map_cons, List.map_nil, List.foldl_cons, List.foldl_nil,
      digitVal_digitChar d hd, Nat.ofDigits_cons, List.length_cons, Nat.cast_id]
    ring

theorem digitsToNat_natRepr (n : Nat) : digitsToNat (natRepr n) = n := by
  unfold natRepr digitsToNat
  by_cases h : n = 0
  · subst h; rfl
  · rw [if_neg h,
      foldl_digits_key _ (fun d hd => Nat.digits_lt_base (by norm_num) hd) 0]
    simp [Nat.ofDigits_digits]

theorem parseNumCore_natRepr (neg : Bool) (n : Nat) (rest : List Char) (h : restOk rest) :
    parseNumCore neg (natRepr n ++ rest)
      = .ok (.num (if neg then -(Int.ofNat n) else Int.ofNat n), rest) := by
  unfold parseNumCore
  rw [takeDigits_append _ _ (natRepr_all_digits n) h]
  simp [if_neg (natRepr_ne_nil n), numTail_restOk rest h, digitsToNat_natRepr]

theorem isDigitChar_ne_dash (c : Char) (h : isDigitChar c = true) : c ≠ '-' := by
  intro hc; subst hc; exact absurd h (by decide)

theorem parseNumber_intRepr (n : Int) (rest : List Char) (h : restOk rest) :
    parseNumber (intRepr n ++ rest) = .ok (.num n, rest) := by
  cases n with
  | ofNat m =>
    show parseNumber (natRepr m ++ rest) = _
    cases hnr : natRepr m with
    | nil => exact absurd hnr (natRepr_ne_nil m)
    | cons c cs =>
      have hc : isDigitChar c = true := natRepr_all_digits m c (by rw [hnr]; simp)
      rw [List.cons_append]
      simp only [parseNumber, if_neg (isDigitChar_ne_dash c hc)]
      rw [← List.cons_append, ← hnr, parseNumCore_natRepr false m rest h]
      simp
  | negSucc m =>
    show parseNumber (('-' :: natRepr (m + 1)) ++ rest) = _
    rw [List.cons_append]
    simp only [parseNumber, if_pos rfl]
    rw [parseNumCore_natRepr true (m + 1) rest h]
    have hint : -Int.ofNat (m + 1) = Int.negSucc m := by
      rw [Int.negSucc_eq, Int.ofNat_eq_natCast]
      push_cast
      ring
    rw [if_pos rfl, hint, if_pos trivial]

/-! ## Lemmas: string escaping and serialized heads -/

theorem parseStringChars_escape (s : List Char) : ∀ (rest : List Char) (fuel : Nat),
    (escapeChars s).length < fuel →
    parseStringChars fuel (escapeChars s ++ ('"' :: rest)) = .ok (s, rest) := by
  induction s with
  | nil =>
    intro rest fuel hf
    cases fuel with
    | zero => omega
    | succ f => rfl
  | cons c cs ih =>
    intro rest fuel hf
    show parseStringChars fuel ((escapeChar c ++ escapeChars cs) ++ ('"' :: rest)) = _
    rw [List.append_assoc]
    have hlen : (escapeChar c).length + (escapeChars cs).length < fuel := by
      have : escapeChars (c :: cs) = escapeChar c ++ escapeChars cs := rfl
      rw [this, List.length_append] at hf
      omega
    have hec : 1 ≤ (escapeChar c).length := by
      unfold escapeChar
      repeat' split
      all_goals simp
    cases fuel with
    | zero => omega
    | succ f =>
      have hih : (escapeChars cs).length < f := by omega
      by_cases h1 : c = '"'
      · subst h1; simp [escapeChar, parseStringChars, unescapeChar, ih _ f hih]
      by_cases h2 : c = '\\'
      · subst h2; simp [escapeChar, parseStringChars, unescapeChar, ih _ f hih]
      by_cases h3 : c = '\n'
      · subst h3; simp [escapeChar, h1, parseStringChars, unescapeChar, ih _ f hih]
      by_cases h4 : c = '\t'
      · subst h4; simp [escapeChar, h1, h2, parseStringChars, unescapeChar, ih _ f hih]
      by_cases h5 : c = '\r'
      · subst h5
        simp [escapeChar, h1, h2, h3, parseStringChars, unescapeChar, ih _ f hih]
      · simp [escapeChar, h1, h2, h3, h4, h5, parseStringChars, ih _ f hih]

theorem digit_facts (c : Char) (h : isDigitChar c = true) :
    isWsChar c = false ∧ c ≠ ']' ∧ c ≠ ',' ∧ c ≠ braceR ∧ c ≠ ':' := by
  refine ⟨?_, ?_, ?_, ?_, ?_⟩
  · rcases Bool.eq_false_or_eq_true (isWsChar c) with ht | hf
    · exfalso
      simp only [isWsChar, Bool.or_eq_true, decide_eq_true_eq] at ht
      rcases ht with ((h' | h') | h') | h' <;> (subst h'; exact absurd h (by decide))
    · exact hf
  · intro heq; subst heq; exact absurd h (by decide)
  · intro heq; subst heq; exact absurd h (by decide)
  · intro heq; subst heq; exact absurd h (by decide)
  · intro heq; subst heq; exact absurd h (by decide)

theorem digit_facts2 (c : Char) (h : isDigitChar c = true) :
    c ≠ '"' ∧ c ≠ '[' ∧ c ≠ braceL ∧ c ≠ 't' ∧ c ≠ 'f' ∧ c ≠ 'n' := by
  refine ⟨?_, ?_, ?_, ?_, ?_, ?_⟩
  all_goals (intro heq; subst heq; exact absurd h (by decide))

theorem stringify_head (v : Json) (hwf : v.wf = true) :
    ∃ c cs, v.stringifyChars = c :: cs ∧ isWsChar c = false ∧ c ≠ ']' ∧ c ≠ ',' ∧
      c ≠ braceR ∧ c ≠ ':' := by
  cases v with
  | null =>
    exact ⟨'n', _, rfl, by decide, by decide, by decide, by decide, by decide⟩
  | bool b =>
    cases b with
    | true => exact ⟨'t', _, rfl, by decide, by decide, by decide, by decide, by decide⟩
    | false => exact ⟨'f', _, rfl, by decide, by decide, by decide, by decide, by decide⟩
  | num n =>
    cases n with
    | ofNat m =>
      cases hnr : natRepr m with
      | nil => exact absurd hnr (natRepr_ne_nil m)
      | cons c cs =>
        have hc := natRepr_all_digits m c (by rw [hnr]; simp)
        obtain ⟨f1, f2, f3, f4, f5⟩ := digit_facts c hc
        exact ⟨c, cs, by
          rw [show Json.stringifyChars (.num (Int.ofNat m)) = natRepr m from rfl, hnr],
          f1, f2, f3, f4, f5⟩
    | negSucc m =>
      exact ⟨'-', _, rfl, by decide, by decide, by decide, by decide, by decide⟩
  | decimal s => simp [Json.wf] at hwf
  | str s =>
    exact ⟨'"', _, rfl, by decide, by decide, by decide, by decide, by decide⟩
  | arr xs =>
    exact ⟨'[', _, rfl, by decide, by decide, by decide, by decide, by decide⟩
  | obj fs =>
    exact ⟨braceL, _, rfl, by decide, by decide, by decide, by decide, by decide⟩

theorem skipWs_not_ws (c : Char) (cs : List Char) (h : isWsChar c = false) :
    skipWs (c :: cs) = c :: cs := by
  simp [skipWs, h]

/-! ## Lemmas: decomposition of serialized arrays and objects -/

theorem wfList_cons (x : Json) (t : JsonList) (h : JsonList.wf (.cons x t) = true) :
    x.wf = true ∧ t.wf = true := by
  have : JsonList.wf (.cons x t) = (x.wf && t.wf) := rfl
  rw [this, Bool.and_eq_true] at h
  exact h

theorem wfFields_cons (k : String) (v : Json) (t : JsonFields)
    (h : JsonFields.wf (.cons k v t) = true) : v.wf = true ∧ t.wf = true := by
  have : JsonFields.wf (.cons k v t) = (v.wf && t.wf) := rfl
  rw [this, Bool.and_eq_true] at h
  exact h

theorem stringifyList_decomp : ∀ (x : Json) (t : JsonList),
    JsonList.stringifyChars (.cons x t) = x.stringifyChars ++ listTailChars t
  | x, .nil => by
      show x.stringifyChars = x.stringifyChars ++ ([] : List Char)
      rw [List.append_nil]
  | x, .cons y ys => by
      show x.stringifyChars ++ ',' :: JsonList.stringifyChars (.cons y ys)
          = x.stringifyChars ++ ',' :: (y.stringifyChars ++ listTailChars ys)
      rw [stringifyList_decomp y ys]

theorem stringifyFields_decomp : ∀ (k : String) (v : Json) (t : JsonFields),
    JsonFields.stringifyChars (.cons k v t) = memberChars k v ++ fieldsTailChars t
  | k, v, .nil => by
      show memberChars k v = memberChars k v ++ ([] : List Char)
      rw [List.append_nil]
  | k, v, .cons k2 v2 ys => by
      show memberChars k v ++ ',' :: JsonFields.stringifyChars (.cons k2 v2 ys)
          = memberChars k v ++ ',' :: (memberChars k2 v2 ++ fieldsTailChars ys)
      rw [stringifyFields_decomp k2 v2 ys]

theorem restOk_listTail (t : JsonList) (rest : List Char) :
    restOk (listTailChars t ++ (']' :: rest)) := by
  cases t with
  | nil => exact Or.inr (Or.inl rfl)
  | cons y ys => exact Or.inl rfl

theorem restOk_fieldsTail (t : JsonFields) (rest : List Char) :
    restOk (fieldsTailChars t ++ (braceR :: rest)) := by
  cases t with
  | nil => exact Or.inr (Or.inr rfl)
  | cons k v ys => exact Or.inl rfl

theorem skipWs_stringifyList (xs : JsonList) (h : xs.wf = true) (rest : List Char) :
    skipWs (xs.stringifyChars ++ (']' :: rest)) = xs.stringifyChars ++ (']' :: rest) := by
  cases xs with
  | nil => rfl
  | cons x t =>
    rw [stringifyList_decomp]
    obtain ⟨c, cs, hc, hws, _, _, _, _⟩ := stringify_head x (wfList_cons x t h).1
    rw [hc]
    simp only [List.cons_append]
    exact skipWs_not_ws c _ hws

theorem skipWs_stringifyFields (fs : JsonFields) (rest : List Char) :
    skipWs (fs.stringifyChars ++ (braceR :: rest)) = fs.stringifyChars ++ (braceR :: rest) := by
  cases fs with
  | nil => rfl
  | cons k v t =>
    rw [stringifyFields_decomp]
    show skipWs ('"' :: _) = _
    exact skipWs_not_ws '"' _ (by decide)

/-! ## Lemmas: the parser inverts the serializer -/

theorem memberChars_length (k : String) (v : Json) :
    (memberChars k v).length
      = (escapeChars k.data).length + 3 + v.stringifyChars.length := by
  simp [memberChars, List.length_append]
  omega

theorem stringify_head_len (v : Json) (hwf : v.wf = true) :
    1 ≤ v.stringifyChars.length := by
  obtain ⟨c, cs, hc, -, -, -, -, -⟩ := stringify_head v hwf
  rw [hc]
  simp

theorem parseValue_digit (fuel : Nat) (c : Char) (cs : List Char)
    (h : isDigitChar c = true) :
    parseValue (fuel + 1) (c :: cs) = parseNumber (c :: cs) := by
  obtain ⟨g1, g2, g3, g4, g5, g6⟩ := digit_facts2 c h
  simp only [parseValue, if_neg g1, if_neg g2, if_neg g3, if_neg g4, if_neg g5, if_neg g6]
  rw [if_pos]
  simp [h]

theorem parseMember_of (k : String) (v : Json) (hv : v.wf = true) (g : Nat)
    (rest : List Char)
    (hval : parseValue g (v.stringifyChars ++ rest) = .ok (v, rest)) :
    parseMember (g + 1) (memberChars k v ++ rest) = .ok (k, v, rest) := by
  have hshape : memberChars k v ++ rest
      = '"' :: (escapeChars k.data ++ ('"' :: (':' :: (v.stringifyChars ++ rest)))) := by
    simp [memberChars, List.append_assoc]
  have hstr := parseStringChars_escape k.data (':' :: (v.stringifyChars ++ rest))
      ((escapeChars k.data ++ ('"' :: (':' :: (v.stringifyChars ++ rest)))).length + 1)
      (by simp [List.length_append]; omega)
  obtain ⟨c, cs, hc, hws, -, -, -, -⟩ := stringify_head v hv
  have hskip : skipWs (v.stringifyChars ++ rest) = v.stringifyChars ++ rest := by
    rw [hc, List.cons_append]
    exact skipWs_not_ws c _ hws
  rw [hshape]
  show ((match parseStringChars
        ((escapeChars k.data ++ ('"' :: (':' :: (v.stringifyChars ++ rest)))).length + 1)
        (escapeChars k.data ++ ('"' :: (':' :: (v.stringifyChars ++ rest)))) with
      | Except.error msg => Except.error msg
      | Except.ok (k2, r2) =>
        match skipWs r2 with
        | [] => Except.error "Unexpected end of JSON input"
        | c2 :: r3 =>
          if c2 = ':' then
            match parseValue g (skipWs r3) with
            | Except.error msg => Except.error msg
            | Except.ok (v2, r4) => Except.ok (String.mk k2, v2, r4)
          else Except.error "Expected colon in JSON object")
      : Except String (String × Json × List Char)) = Except.ok (k, v, rest)
  rw [hstr]
  show ((match parseValue g (skipWs (v.stringifyChars ++ rest)) with
      | Except.error msg => Except.error msg
      | Except.ok (v2, r4) => Except.ok (String.mk k.data, v2, r4))
      : Except String (String × Json × List Char)) = Except.ok (k, v, rest)
  rw [hskip, hval]

mutual

theorem rt_val : ∀ (v : Json), v.wf = true → ∀ (fuel : Nat) (rest : List Char),
    v.stringifyChars.length < fuel → restOk rest →
    parseValue fuel (v.stringifyChars ++ rest) = .ok (v, rest)
  | .null, _, fuel, rest, hf, _ => by
      obtain ⟨f, rfl⟩ : ∃ f2, fuel = f2 + 1 := ⟨fuel - 1, by omega⟩
      rfl
  | .bool true, _, fuel, rest, hf, _ => by
      obtain ⟨f, rfl⟩ : ∃ f2, fuel = f2 + 1 := ⟨fuel - 1, by omega⟩
      rfl
  | .bool false, _, fuel, rest, hf, _ => by
      obtain ⟨f, rfl⟩ : ∃ f2, fuel = f2 + 1 := ⟨fuel - 1, by omega⟩
      rfl
  | .num n, _, fuel, rest, hf, hrest => by
      obtain ⟨f, rfl⟩ : ∃ f2, fuel = f2 + 1 := ⟨fuel - 1, by omega⟩
      cases n with
      | ofNat m =>
        show parseValue (f + 1) (natRepr m ++ rest) = .ok (.num (Int.ofNat m), rest)
        cases hnr : natRepr m with
        | nil => exact absurd hnr (natRepr_ne_nil m)
        | cons c cs =>
          have hc := natRepr_all_digits m c (by rw [hnr]; simp)
          rw [List.cons_append, parseValue_digit f c _ hc, ← List.cons_append,
            ← hnr, show natRepr m = intRepr (Int.ofNat m) from rfl,
            parseNumber_intRepr _ _ hrest]
      | negSucc m =>
        show parseValue (f + 1) (('-' :: natRepr (m + 1)) ++ rest)
            = .ok (.num (.negSucc m), rest)
        rw [List.cons_append]
        show parseNumber ('-' :: (natRepr (m + 1) ++ rest))
            = Except.ok (Json.num (Int.negSucc m), rest)
        rw [← List.cons_append, show ('-' :: natRepr (m + 1)) = intRepr (.negSucc m) from rfl,
          parseNumber_intRepr _ _ hrest]
  | .decimal s, hwf, fuel, rest, hf, hrest => by
      exact absurd hwf (by simp [Json.wf])
  | .str s, _, fuel, rest, hf, _ => by
      obtain ⟨f, rfl⟩ : ∃ f2, fuel = f2 + 1 := ⟨fuel - 1, by omega⟩
      have hshape : Json.stringifyChars (.str s) ++ rest
          = '"' :: (escapeChars s.data ++ ('"' :: rest)) := by
        show ('"' :: (escapeChars s.data ++ ['"'])) ++ rest = _
        simp [List.append_assoc]
      rw [hshape]
      show ((match parseStringChars ((escapeChars s.data ++ ('"' :: rest)).length + 1)
            (escapeChars s.data ++ ('"' :: rest)) with
          | Except.ok (a, r) => Except.ok (Json.str (String.mk a), r)
          | Except.error msg => Except.error msg)
          : Except String (Json × List Char)) = Except.ok (Json.str s, rest)
      rw [parseStringChars_escape s.data rest _ (by simp [List.length_append]; omega)]
  | .arr xs, hwf, fuel, rest, hf, hrest => by
      have hx : xs.wf = true := hwf
      obtain ⟨f, rfl⟩ : ∃ f2, fuel = f2 + 1 := ⟨fuel - 1, by omega⟩
      have hshape : Json.stringifyChars (.arr xs) ++ rest
          = '[' :: (xs.stringifyChars ++ (']' :: rest)) := by
        show ('[' :: (xs.stringifyChars ++ [']'])) ++ rest = _
        simp [List.append_assoc]
      have hlen : xs.stringifyChars.length + 1 < f := by
        have h2 : (Json.stringifyChars (.arr xs)).length
            = xs.stringifyChars.length + 2 := by
          show ('[' :: (xs.stringifyChars ++ [']'])).length = _
          simp
        omega
      rw [hshape]
      show parseArrBody f (skipWs (xs.stringifyChars ++ (']' :: rest)))
          = Except.ok (Json.arr xs, rest)
      rw [skipWs_stringifyList xs hx, rt_arrBody xs hx f rest hlen hrest]
  | .obj fs, hwf, fuel, rest, hf, hrest => by
      have hx : fs.wf = true := hwf
      obtain ⟨f, rfl⟩ : ∃ f2, fuel = f2 + 1 := ⟨fuel - 1, by omega⟩
      have hshape : Json.stringifyChars (.obj fs) ++ rest
          = braceL :: (fs.stringifyChars ++ (braceR :: rest)) := by
        show (braceL :: (fs.stringifyChars ++ [braceR])) ++ rest = _
        simp [List.append_assoc]
      have hlen : fs.stringifyChars.length + 1 < f := by
        have h2 : (Json.stringifyChars (.obj fs)).length
            = fs.stringifyChars.length + 2 := by
          show (braceL :: (fs.stringifyChars ++ [braceR])).length = _
          simp
        omega
      rw [hshape]
      show parseObjBody f (skipWs (fs.stringifyChars ++ (braceR :: rest)))
          = Except.ok (Json.obj fs, rest)
      rw [skipWs_stringifyFields fs, rt_objBody fs hx f rest hlen hrest]

theorem rt_arrBody : ∀ (xs : JsonList), xs.wf = true → ∀ (fuel : Nat) (rest : List Char),
    xs.stringifyChars.length + 1 < fuel → restOk rest →
    parseArrBody fuel (xs.stringifyChars ++ (']' :: rest)) = .ok (.arr xs, rest)
  | .nil, _, fuel, rest, hf, _ => by
      obtain ⟨f, rfl⟩ : ∃ f2, fuel = f2 + 1 := ⟨fuel - 1, by omega⟩
      rfl
  | .cons x t, hwf, fuel, rest, hf, hrest => by
      obtain ⟨hx, ht⟩ := wfList_cons x t hwf
      obtain ⟨f, rfl⟩ : ∃ f2, fuel = f2 + 1 := ⟨fuel - 1, by omega⟩
      obtain ⟨c, cs, hc, hws, hc1, hc2, hc3, hc4⟩ := stringify_head x hx
      have hdecomp := stringifyList_decomp x t
      have hlx : x.stringifyChars.length < f := by
        rw [hdecomp] at hf
        simp [List.length_append] at hf
        omega
      have hlt : (listTailChars t).length < f := by
        rw [hdecomp] at hf
        have hx1 : 1 ≤ x.stringifyChars.length := stringify_head_len x hx
        simp [List.length_append] at hf
        omega
      have hshape : JsonList.stringifyChars (.cons x t) ++ (']' :: rest)
          = x.stringifyChars ++ (listTailChars t ++ (']' :: rest)) := by
        rw [hdecomp, List.append_assoc]
      rw [hshape, hc, List.cons_append]
      simp only [parseArrBody, if_neg hc1]
      rw [← List.cons_append, ← hc,
        rt_val x hx f _ hlx (restOk_listTail t rest)]
      show ((match parseArrTail f (listTailChars t ++ (']' :: rest)) with
          | Except.error msg => Except.error msg
          | Except.ok (t3, r3) => Except.ok (Json.arr (JsonList.cons x t3), r3))
          : Except String (Json × List Char))
          = Except.ok (Json.arr (JsonList.cons x t), rest)
      rw [rt_arrTail t ht f rest hlt hrest]

theorem rt_arrTail : ∀ (t : JsonList), t.wf = true → ∀ (fuel : Nat) (rest : List Char),
    (listTailChars t).length < fuel → restOk rest →
    parseArrTail fuel (listTailChars t ++ (']' :: rest)) = .ok (t, rest)
  | .nil, _, fuel, rest, hf, _ => by
      obtain ⟨f, rfl⟩ : ∃ f2, fuel = f2 + 1 := ⟨fuel - 1, by omega⟩
      rfl
  | .cons y t2, hwf, fuel, rest, hf, hrest => by
      obtain ⟨hy, ht2⟩ := wfList_cons y t2 hwf
      obtain ⟨f, rfl⟩ : ∃ f2, fuel = f2 + 1 := ⟨fuel - 1, by omega⟩
      obtain ⟨c, cs, hc, hws, -, -, -, -⟩ := stringify_head y hy
      have hlen2 : (listTailChars (JsonList.cons y t2)).length
          = y.stringifyChars.length + (listTailChars t2).length + 1 := by
        show (',' :: (y.stringifyChars ++ listTailChars t2)).length = _
        simp [List.length_append]
      have hly : y.stringifyChars.length < f := by omega
      have hlt2 : (listTailChars t2).length < f := by omega
      have hshape : listTailChars (.cons y t2) ++ (']' :: rest)
          = ',' :: (y.stringifyChars ++ (listTailChars t2 ++ (']' :: rest))) := by
        show (',' :: (y.stringifyChars ++ listTailChars t2)) ++ (']' :: rest) = _
        simp [List.append_assoc]
      rw [hshape]
      show ((match parseValue f
            (skipWs (y.stringifyChars ++ (listTailChars t2 ++ (']' :: rest)))) with
          | Except.error msg => Except.error msg
          | Except.ok (v2, r2) =>
            match parseArrTail f r2 with
            | Except.error msg => Except.error msg
            | Except.ok (t3, r3) => Except.ok (JsonList.cons v2 t3, r3))
          : Except String (JsonList × List Char))
          = Except.ok (JsonList.cons y t2, rest)
      rw [hc, List.cons_append, skipWs_not_ws c _ hws, ← List.cons_append, ← hc,
        rt_val y hy f _ hly (restOk_listTail t2 rest)]
      show ((match parseArrTail f (listTailChars t2 ++ (']' :: rest)) with
          | Except.error msg => Except.error msg
          | Except.ok (t3, r3) => Except.ok (JsonList.cons y t3, r3))
          : Except String (JsonList × List Char))
          = Except.ok (JsonList.cons y t2, rest)
      rw [rt_arrTail t2 ht2 f rest hlt2 hrest]

theorem rt_objBody : ∀ (fs : JsonFields), fs.wf = true → ∀ (fuel : Nat) (rest : List Char),
    fs.stringifyChars.length + 1 < fuel → restOk rest →
    parseObjBody fuel (fs.stringifyChars ++ (braceR :: rest)) = .ok (.obj fs, rest)
  | .nil, _, fuel, rest, hf, _ => by
      obtain ⟨f, rfl⟩ : ∃ f2, fuel = f2 + 1 := ⟨fuel - 1, by omega⟩
      rfl
  | .cons k v t, hwf, fuel, rest, hf, hrest => by
      obtain ⟨hv, ht⟩ := wfFields_cons k v t hwf
      have hdecomp := stringifyFields_decomp k v t
      have hflen : (JsonFields.stringifyChars (.cons k v t)).length
          = (memberChars k v).length + (fieldsTailChars t).length := by
        rw [hdecomp, List.length_append]
      have hmlen := memberChars_length k v
      obtain ⟨g, rfl⟩ : ∃ g2, fuel = g2 + 2 := ⟨fuel - 2, by omega⟩
      have hlv : v.stringifyChars.length < g := by omega
      have hlt : (fieldsTailChars t).length < g + 1 := by omega
      have hshape : JsonFields.stringifyChars (.cons k v t) ++ (braceR :: rest)
          = memberChars k v ++ (fieldsTailChars t ++ (braceR :: rest)) := by
        rw [hdecomp, List.append_assoc]
      rw [hshape]
      show ((match parseMember (g + 1)
            (memberChars k v ++ (fieldsTailChars t ++ (braceR :: rest))) with
          | Except.error msg => Except.error msg
          | Except.ok (k2, v2, r2) =>
            match parseObjTail (g + 1) r2 with
            | Except.error msg => Except.error msg
            | Except.ok (t3, r3) => Except.ok (Json.obj (JsonFields.cons k2 v2 t3), r3))
          : Except String (Json × List Char))
          = Except.ok (Json.obj (JsonFields.cons k v t), rest)
      rw [parseMember_of k v hv g _
        (rt_val v hv g _ hlv (restOk_fieldsTail t rest))]
      show ((match parseObjTail (g + 1) (fieldsTailChars t ++ (braceR :: rest)) with
          | Except.error msg => Except.error msg
          | Except.ok (t3, r3) => Except.ok (Json.obj (JsonFields.cons k v t3), r3))
          : Except String (Json × List Char))
          = Except.ok (Json.obj (JsonFields.cons k v t), rest)
      rw [rt_objTail t ht (g + 1) rest hlt hrest]

theorem rt_objTail : ∀ (t : JsonFields), t.wf = true → ∀ (fuel : Nat) (rest : List Char),
    (fieldsTailChars t).length < fuel → restOk rest →
    parseObjTail fuel (fieldsTailChars t ++ (braceR :: rest)) = .ok (t, rest)
  | .nil, _, fuel, rest, hf, _ => by
      obtain ⟨f, rfl⟩ : ∃ f2, fuel = f2 + 1 := ⟨fuel - 1, by omega⟩
      rfl
  | .cons k v t2, hwf, fuel, rest, hf, hrest => by
      obtain ⟨hv, ht2⟩ := wfFields_cons k v t2 hwf
      have hflen : (fieldsTailChars (.cons k v t2)).length
          = (memberChars k v).length + (fieldsTailChars t2).length + 1 := by
        show (',' :: (memberChars k v ++ fieldsTailChars t2)).length = _
        simp [List.length_append]
      have hmlen := memberChars_length k v
      obtain ⟨g, rfl⟩ : ∃ g2, fuel = g2 + 2 := ⟨fuel - 2, by omega⟩
      have hlv : v.stringifyChars.length < g := by omega
      have hlt2 : (fieldsTailChars t2).length < g + 1 := by omega
      have hshape : fieldsTailChars (.cons k v t2) ++ (braceR :: rest)
          = ',' :: (memberChars k v ++ (fieldsTailChars t2 ++ (braceR :: rest))) := by
        show (',' :: (memberChars k v ++ fieldsTailChars t2)) ++ (braceR :: rest) = _
        simp [List.append_assoc]
      have hskip : skipWs (memberChars k v ++ (fieldsTailChars t2 ++ (braceR :: rest)))
          = memberChars k v ++ (fieldsTailChars t2 ++ (braceR :: rest)) :=
        skipWs_not_ws '"' _ (by decide)
      rw [hshape]
      show ((match parseMember (g + 1)
            (skipWs (memberChars k v ++ (fieldsTailChars t2 ++ (braceR :: rest)))) with
          | Except.error msg => Except.error msg
          | Except.ok (k2, v2, r2) =>
            match parseObjTail (g + 1) r2 with
            | Except.error msg => Except.error msg
            | Except.ok (t3, r3) => Except.ok (JsonFields.cons k2 v2 t3, r3))
          : Except String (JsonFields × List Char))
          = Except.ok (JsonFields.cons k v t2, rest)
      rw [hskip, parseMember_of k v hv g _
        (rt_val v hv g _ hlv (restOk_fieldsTail t2 rest))]
      show ((match parseObjTail (g + 1) (fieldsTailChars t2 ++ (braceR :: rest)) with
          | Except.error msg => Except.error msg
          | Except.ok (t3, r3) => Except.ok (JsonFields.cons k v t3, r3))
          : Except String (JsonFields × List Char))
          = Except.ok (JsonFields.cons k v t2, rest)
      rw [rt_objTail t2 ht2 (g + 1) rest hlt2 hrest]

end

/-- The parser inverts the serializer: parsing the serialized form of any
JSON value of the integer-modelled fragment recovers the value exactly. -/
theorem jsonParse_stringify (v : Json) (hwf : v.wf = true) :
    jsonParse (jsonStringify v) = .ok v := by
  unfold jsonParse jsonStringify
  obtain ⟨c, cs, hc, hws, -, -, -, -⟩ := stringify_head v hwf
  have hskip : skipWs (String.mk v.stringifyChars).data = v.stringifyChars := by
    show skipWs v.stringifyChars = _
    rw [hc]
    exact skipWs_not_ws c _ hws
  rw [hskip]
  have hval := rt_val v hwf ((String.mk v.stringifyChars).data.length + 1) []
    (by show v.stringifyChars.length < v.stringifyChars.length + 1; omega) trivial
  rw [List.append_nil] at hval
  rw [hval]
  rfl

/-! ## Lemmas: the path pattern matcher -/

theorem splitSegs_ne_nil : ∀ (cs : List Char), splitSegs cs ≠ []
  | [] => by simp [splitSegs]
  | c :: cs => by
      by_cases h : c = '/'
      · simp [splitSegs, h]
      · simp only [splitSegs, if_neg h]
        cases hs : splitSegs cs with
        | nil => simp [consHead]
        | cons s rest => simp [consHead]

theorem joinSegs_splitSegs : ∀ (cs : List Char), joinSegs (splitSegs cs) = cs
  | [] => rfl
  | c :: cs => by
      by_cases h : c = '/'
      · subst h
        rw [show splitSegs ('/' :: cs) = "" :: splitSegs cs from by simp [splitSegs]]
        cases hs : splitSegs cs with
        | nil => exact absurd hs (splitSegs_ne_nil cs)
        | cons s rest =>
          show "".data ++ '/' :: joinSegs (s :: rest) = '/' :: cs
          rw [← hs, joinSegs_splitSegs cs]
          rfl
      · rw [show splitSegs (c :: cs) = consHead c (splitSegs cs) from by simp [splitSegs, h]]
        cases hs : splitSegs cs with
        | nil => exact absurd hs (splitSegs_ne_nil cs)
        | cons s rest =>
          have hjoin := joinSegs_splitSegs cs
          rw [hs] at hjoin
          cases rest with
          | nil =>
            show (String.mk (c :: s.data)).data = c :: cs
            show c :: s.data = c :: cs
            rw [show joinSegs [s] = s.data from rfl] at hjoin
            rw [hjoin]
          | cons s2 rest2 =>
            show (String.mk (c :: s.data)).data ++ '/' :: joinSegs (s2 :: rest2) = c :: cs
            rw [show joinSegs (s :: s2 :: rest2)
                = s.data ++ '/' :: joinSegs (s2 :: rest2) from rfl] at hjoin
            show c :: (s.data ++ '/' :: joinSegs (s2 :: rest2)) = c :: cs
            rw [hjoin]

theorem splitSegs_inj (a b : List Char) (h : splitSegs a = splitSegs b) : a = b := by
  rw [← joinSegs_splitSegs a, ← joinSegs_splitSegs b, h]

theorem segsMatch_iff : ∀ (pat : List Segment) (ss : List String),
    segsMatch pat ss = true ↔
      (pat.length = ss.length ∧
        ∀ i (hi : i < pat.length) (hj : i < ss.length),
          segMatches pat[i] ss[i] = true)
  | [], [] => by simp [segsMatch]
  | [], s :: ss => by simp [segsMatch]
  | p :: ps, [] => by simp [segsMatch]
  | p :: ps, s :: ss => by
      simp only [segsMatch, Bool.and_eq_true, segsMatch_iff ps ss]
      constructor
      · rintro ⟨h1, h2, h3⟩
        refine ⟨by simp [h2], ?_⟩
        intro i hi hj
        cases i with
        | zero => simpa using h1
        | succ n => simpa using h3 n (by simpa using hi) (by simpa using hj)
      · rintro ⟨h1, h2⟩
        refine ⟨by simpa using h2 0 (by simp) (by simp), by simpa using h1, ?_⟩
        intro i hi hj
        simpa using h2 (i + 1) (by simpa using hi) (by simpa using hj)

theorem segsMatch_lit : ∀ (L S : List String),
    (segsMatch (L.map Segment.lit) S = true) ↔ S = L
  | [], [] => by simp [segsMatch]
  | [], s :: ss => by simp [segsMatch]
  | l :: L, [] => by simp [segsMatch]
  | l :: L, s :: S => by
      simp only [List.map_cons, segsMatch, Bool.and_eq_true, segMatches, beq_iff_eq,
        segsMatch_lit L S]
      constructor
      · rintro ⟨h1, h2⟩
        rw [← h1, h2]
      · intro h
        injection h with h1 h2
        exact ⟨h1.symm, h2⟩

theorem toSegment_lit_eq (s s2 : String) (h : toSegment s = .lit s2) : s2 = s := by
  unfold toSegment at h
  split at h
  · exact absurd h (by simp)
  · injection h with h1
    exact h1.symm

theorem paramNames_lit_cons (s : String) (rest : List Segment) :
    paramNames (.lit s :: rest) = paramNames rest := by
  simp [paramNames]

theorem paramNames_param_cons (n : String) (rest : List Segment) :
    paramNames (.param n :: rest) = n :: paramNames rest := by
  simp [paramNames]

theorem map_toSegment_litOnly : ∀ (L : List String),
    paramNames (L.map toSegment) = [] → L.map toSegment = L.map Segment.lit
  | [] => fun _ => rfl
  | s :: L => fun h => by
      rw [List.map_cons] at h ⊢
      cases hts : toSegment s with
      | param n =>
        rw [hts, paramNames_param_cons] at h
        exact absurd h (by simp)
      | lit s2 =>
        rw [hts, paramNames_lit_cons] at h
        rw [toSegment_lit_eq s s2 hts, map_toSegment_litOnly L h, List.map_cons]

theorem extractGroups_keys : ∀ (pat : List Segment) (ss : List String),
    segsMatch pat ss = true → (extractGroups pat ss).map Prod.fst = paramNames pat
  | [], [], _ => by simp [extractGroups, paramNames]
  | [], s :: ss, h => by simp [segsMatch] at h
  | p :: ps, [], h => by simp [segsMatch] at h
  | .lit l :: ps, s :: ss, h => by
      simp only [segsMatch, Bool.and_eq_true] at h
      show (extractGroups ps ss).map Prod.fst = paramNames (.lit l :: ps)
      rw [extractGroups_keys ps ss h.2, paramNames_lit_cons]
  | .param n :: ps, s :: ss, h => by
      simp only [segsMatch, Bool.and_eq_true] at h
      show ((n, s) :: extractGroups ps ss).map Prod.fst = paramNames (.param n :: ps)
      rw [List.map_cons, extractGroups_keys ps ss h.2, paramNames_param_cons]

theorem extractGroups_vals : ∀ (pat : List Segment) (ss : List String),
    segsMatch pat ss = true → ∀ pr ∈ extractGroups pat ss, pr.2 ≠ ""
  | [], [], _ => by simp [extractGroups]
  | [], s :: ss, h => by simp [segsMatch] at h
  | p :: ps, [], h => by simp [segsMatch] at h
  | .lit l :: ps, s :: ss, h => by
      simp only [segsMatch, Bool.and_eq_true] at h
      show ∀ pr ∈ extractGroups ps ss, pr.2 ≠ ""
      exact extractGroups_vals ps ss h.2
  | .param n :: ps, s :: ss, h => by
      simp only [segsMatch, Bool.and_eq_true] at h
      intro pr hpr
      rw [show extractGroups (.param n :: ps) (s :: ss)
          = (n, s) :: extractGroups ps ss from rfl] at hpr
      rcases List.mem_cons.mp hpr with heq | hmem
      · subst heq
        intro hempty
        have hempty2 : s = "" := hempty
        have h1 := h.1
        rw [hempty2] at h1
        rw [show segMatches (Segment.param n) "" = false from rfl] at h1
        exact absurd h1 (by simp)
      · exact extractGroups_vals ps ss h.2 pr hmem

theorem substSegs_extract : ∀ (pat : List Segment) (ss : List String),
    segsMatch pat ss = true → substSegs pat (extractGroups pat ss) = ss
  | [], [], _ => rfl
  | [], s :: ss, h => by simp [segsMatch] at h
  | p :: ps, [], h => by simp [segsMatch] at h
  | .lit l :: ps, s :: ss, h => by
      simp only [segsMatch, Bool.and_eq_true] at h
      have h1 : l = s := by
        have := h.1
        rw [show segMatches (.lit l) s = (l == s) from rfl] at this
        exact beq_iff_eq.mp this
      show l :: substSegs ps (extractGroups ps ss) = s :: ss
      rw [h1, substSegs_extract ps ss h.2]
  | .param n :: ps, s :: ss, h => by
      simp only [segsMatch, Bool.and_eq_true] at h
      show s :: substSegs ps (extractGroups ps ss) = s :: ss
      rw [substSegs_extract ps ss h.2]

theorem data_eq_slash_dropSlash (p : String) (h : startsWithSlash p = true) :
    p.data = '/' :: dropSlash p.data := by
  unfold startsWithSlash at h
  cases hd : p.data with
  | nil => rw [hd] at h; exact absurd h (by simp)
  | cons c cs =>
    rw [hd] at h
    simp only [decide_eq_true_eq] at h
    subst h
    show '/' :: cs = '/' :: dropSlash ('/' :: cs)
    rw [show dropSlash ('/' :: cs) = cs from by simp [dropSlash]]

theorem string_data_inj (a b : String) (h : a.data = b.data) : a = b := by
  cases a
  cases b
  exact congrArg String.mk h

/-! ## Lemmas: registration and the middleware chain -/

theorem applyOps_middlewares : ∀ (ops : List ServerOp) (srv : Server),
    (applyOps srv ops).middlewares = srv.middlewares ++ userMiddlewares ops
  | [], srv => by simp [applyOps, userMiddlewares]
  | .mw m :: rest, srv => by
      show (applyOps (useMiddleware srv m) rest).middlewares = _
      rw [applyOps_middlewares rest]
      simp [useMiddleware, userMiddlewares]
  | .route p mth h :: rest, srv => by
      show (applyOps (addHandler srv p mth h) rest).middlewares = _
      rw [applyOps_middlewares rest]
      simp [addHandler, userMiddlewares]

theorem runMiddlewares_append : ∀ (ms1 ms2 : List Middleware) (data : Context),
    runMiddlewares (ms1 ++ ms2) data
      = (runMiddlewares ms1 data).bind (fun d => runMiddlewares ms2 d)
  | [], ms2, data => by simp [runMiddlewares, Except.bind]
  | m :: ms1, ms2, data => by
      rw [List.cons_append]
      show (match m data with
          | .error e => .error e
          | .ok d => runMiddlewares (ms1 ++ ms2) d)
        = (runMiddlewares (m :: ms1) data).bind (fun d => runMiddlewares ms2 d)
      cases hm : m data with
      | error e => simp [runMiddlewares, hm, Except.bind]
      | ok d => simp [runMiddlewares, hm, Except.bind, runMiddlewares_append ms1 ms2 d]

theorem lookupRoutes_setRoutes : ∀ (rs : List (String × List RouteEntry)) (m : String)
    (v : List RouteEntry), lookupRoutes (setRoutes rs m v) m = v
  | [], m, v => by simp [setRoutes, lookupRoutes]
  | (k, u) :: rest, m, v => by
      by_cases h : k == m
      · simp [setRoutes, lookupRoutes, h]
      · simp only [setRoutes, lookupRoutes, h, if_false, Bool.false_eq_true, if_neg]
        exact lookupRoutes_setRoutes rest m v

/-! ## The verified claims -/

/-- C1: for every server built through the registration API and every
request whose effective content type is JSON (an explicit application/json
header, or no content-type header at all) and whose body text is non-empty
but not valid JSON, the pipeline aborts at the Body Parser stage: the route
handler is never invoked, and the response has status 500 with the JSON
parse error message as its body. -/
theorem json_parse_failure_aborts (ops : List ServerOp) (req : Request) (e : String)
    (hct : getHeader req.headers "content-type" = some CONTENT_TYPES.JSON
      ∨ getHeader req.headers "content-type" = none)
    (hbody : req.body ≠ "")
    (hparse : jsonParse req.body = .error e) :
    handleRequest (applyOps initServer ops) req = ⟨errorResponse e, false, [e]⟩ := by
  have hbp : BodyParser.parse (requestInit req) = .error e := by
    rcases hct with hct | hct <;>
      (simp [BodyParser.parse, BodyParser.parseJSON, requestInit, hct, CONTENT_TYPES.TEXT,
        CONTENT_TYPES.JSON, hbody, hparse]
       ; intro hfalse
       ; exact absurd hfalse (by decide))
  have hrun : runMiddlewares (applyOps initServer ops).middlewares (requestInit req)
      = .error e := by
    rw [applyOps_middlewares, show initServer.middlewares = [BodyParser.parse] from rfl,
      show ([BodyParser.parse] ++ userMiddlewares ops : List Middleware)
        = BodyParser.parse :: userMiddlewares ops from rfl]
    show ((match BodyParser.parse (requestInit req) with
        | Except.error e2 => Except.error e2
        | Except.ok d => runMiddlewares (userMiddlewares ops) d)
        : Except String Context) = Except.error e
    rw [hbp]
  unfold handleRequest
  rw [hrun]

/-- C2: for every server built through the registration API, the middleware
chain has the built-in Body Parser at position 0 followed by the user
middlewares in registration order (registration can only append, never
remove or reorder), and the chain runs as the strictly sequential
composition of its parts: each middleware completes, and its result is
awaited, before anything after it runs. -/
theorem middleware_chain_order (ops : List ServerOp) :
    (applyOps initServer ops).middlewares = BodyParser.parse :: userMiddlewares ops
    ∧ ∀ (ms1 ms2 : List Middleware) (data : Context),
        runMiddlewares (ms1 ++ ms2) data
          = (runMiddlewares ms1 data).bind (fun d => runMiddlewares ms2 d) := by
  constructor
  · rw [applyOps_middlewares]
    rfl
  · exact fun ms1 ms2 data => runMiddlewares_append ms1 ms2 data

/-- C3: round-trip through the Response Serializer: for every handler
result whose effective content type is application/json and whose payload
is a JSON-representable value X (of the integer-modelled fragment), the
response body, decoded as JSON, equals X; an absent payload serializes to
an empty body. -/
theorem serializer_json_roundtrip (hr : HandlerResult)
    (hct : contentTypeOrDefault hr.contentType = CONTENT_TYPES.JSON) :
    ∃ resp, serializeResponse (some hr) = .ok resp
      ∧ (∀ X, hr.payload = some X → X.wf = true → jsonParse resp.body = .ok X)
      ∧ (hr.payload = none → resp.body = "") := by
  refine ⟨⟨statusOrDefault hr.statusCode,
    headerValue (applyHeaders [("Content-Type", CONTENT_TYPES.JSON)] hr.headers) "content-type",
    dropHeader (applyHeaders [("Content-Type", CONTENT_TYPES.JSON)] hr.headers) "content-type",
    match hr.payload with | none => "" | some j => jsonStringify j⟩,
    ?_, ?_, ?_⟩
  · unfold serializeResponse
    rw [show contentTypeOrDefault (contentTypeOf (some hr))
        = contentTypeOrDefault hr.contentType from rfl, hct]
    rfl
  · intro X hX hwf
    show jsonParse (match hr.payload with
        | none => ""
        | some j => jsonStringify j) = .ok X
    rw [hX]
    exact jsonParse_stringify X hwf
  · intro hnone
    show (match hr.payload with
        | none => ""
        | some j => jsonStringify j) = ""
    rw [hnone]

/-- C4: LIFO routing precedence: when two routes on the same method (up to
case) both match the request path, dispatch on that path selects and
invokes the handler of the route registered second, regardless of pattern
specificity or anything already registered before. -/
theorem lifo_routing (srv : Server) (p1 m1 p2 m2 : String) (h1 h2 : Handler)
    (data : Context) (hm : upperStr m1 = upperStr m2) (hdm : data.method = upperStr m2)
    (hmatch1 : patternTest (compilePattern (normalizePath p1)) data.path = true)
    (hmatch2 : patternTest (compilePattern (normalizePath p2)) data.path = true) :
    findRoute (addHandler (addHandler srv p1 m1 h1) p2 m2 h2) data
      = some ⟨compilePattern (normalizePath p2), h2⟩
    ∧ getHandlerResponse
        (findRoute (addHandler (addHandler srv p1 m1 h1) p2 m2 h2) data) data
      = h2 { data with
          groups := patternExec (compilePattern (normalizePath p2)) data.path } := by
  have hroutes : (addHandler (addHandler srv p1 m1 h1) p2 m2 h2).routes
      = setRoutes (addHandler srv p1 m1 h1).routes (upperStr m2)
        (⟨compilePattern (normalizePath p2), h2⟩
          :: lookupRoutes (addHandler srv p1 m1 h1).routes (upperStr m2)) := rfl
  have hfind : findRoute (addHandler (addHandler srv p1 m1 h1) p2 m2 h2) data
      = some ⟨compilePattern (normalizePath p2), h2⟩ := by
    unfold findRoute
    rw [hroutes, hdm, lookupRoutes_setRoutes]
    show (match patternTest (compilePattern (normalizePath p2)) data.path with
        | true => some (⟨compilePattern (normalizePath p2), h2⟩ : RouteEntry)
        | false =>
          List.find? (fun rt => patternTest rt.pattern data.path)
            (lookupRoutes (addHandler srv p1 m1 h1).routes (upperStr m2)))
      = some ⟨compilePattern (normalizePath p2), h2⟩
    rw [hmatch2]
  exact ⟨hfind, by rw [hfind]; rfl⟩

/-- C5: path matching is exact over the full request path, never a prefix
match: a literal-only template matches exactly the identical path; in
general a template matches exactly the paths with the same number of
segments where every literal position is the identical segment and every
parameter position is one non-empty segment; and a successful match yields
a groups mapping holding exactly the template's parameter names, each
bound to the matched (non-empty) segment, so that substituting the groups
back into the template reconstructs the request path's segments. -/
theorem path_matching_exact (t p : String)
    (ht : startsWithSlash t = true) (hp : startsWithSlash p = true) :
    (litOnly (compilePattern t) →
      (patternTest (compilePattern t) p = true ↔ p = t))
    ∧ (patternTest (compilePattern t) p = true ↔
        ((compilePattern t).length = (splitSegs (dropSlash p.data)).length ∧
          ∀ i (hi : i < (compilePattern t).length)
            (hj : i < (splitSegs (dropSlash p.data)).length),
            (∀ s, (compilePattern t)[i] = .lit s → (splitSegs (dropSlash p.data))[i] = s)
            ∧ (∀ n, (compilePattern t)[i] = .param n →
                (splitSegs (dropSlash p.data))[i] ≠ "")))
    ∧ (∀ g, patternExec (compilePattern t) p = some g →
        g.map Prod.fst = paramNames (compilePattern t)
        ∧ (∀ pr ∈ g, pr.2 ≠ "")
        ∧ substSegs (compilePattern t) g = splitSegs (dropSlash p.data)) := by
  refine ⟨?_, ?_, ?_⟩
  · intro hlitOnly
    have hcomp : compilePattern t
        = (splitSegs (dropSlash t.data)).map Segment.lit :=
      map_toSegment_litOnly (splitSegs (dropSlash t.data)) hlitOnly
    unfold patternTest
    rw [hcomp, segsMatch_lit]
    constructor
    · intro hsplit
      have hdata : p.data = t.data := by
        rw [data_eq_slash_dropSlash p hp, data_eq_slash_dropSlash t ht,
          splitSegs_inj (dropSlash p.data) (dropSlash t.data) hsplit]
      exact string_data_inj p t hdata
    · intro hpt
      rw [hpt]
  · unfold patternTest
    rw [segsMatch_iff]
    constructor
    · rintro ⟨hlen, hpt⟩
      refine ⟨hlen, ?_⟩
      intro i hi hj
      have hm := hpt i hi hj
      constructor
      · intro s hs
        rw [hs] at hm
        rw [show segMatches (.lit s) (splitSegs (dropSlash p.data))[i]
            = (s == (splitSegs (dropSlash p.data))[i]) from rfl] at hm
        exact (beq_iff_eq.mp hm).symm
      · intro n hn
        rw [hn] at hm
        rw [show segMatches (.param n) (splitSegs (dropSlash p.data))[i]
            = !((splitSegs (dropSlash p.data))[i] == "") from rfl] at hm
        intro hempty
        rw [hempty] at hm
        exact absurd hm (by simp)
    · rintro ⟨hlen, hpt⟩
      refine ⟨hlen, ?_⟩
      intro i hi hj
      have hm := hpt i hi hj
      cases hseg : (compilePattern t)[i] with
      | lit s =>
        rw [show segMatches (.lit s) (splitSegs (dropSlash p.data))[i]
            = (s == (splitSegs (dropSlash p.data))[i]) from rfl, beq_iff_eq]
        exact (hm.1 s hseg).symm
      | param n =>
        rw [show segMatches (.param n) (splitSegs (dropSlash p.data))[i]
            = !((splitSegs (dropSlash p.data))[i] == "") from rfl]
        have hne := hm.2 n hseg
        simp [hne]
  · intro g hg
    unfold patternExec at hg
    split at hg
    · next htest =>
      injection hg with hg2
      subst hg2
      exact ⟨extractGroups_keys _ _ htest, extractGroups_vals _ _ htest,
        substSegs_extract _ _ htest⟩
    · exact absurd hg (by simp)

/-- C6: for every request whose content-type header is the plain-text
content type, the Body Parser assigns the body text verbatim to the
payload (a raw string, not JSON-parsed, and never a parse error) when the
body is non-empty, and leaves the payload unset when the body is empty. -/
theorem text_payload_verbatim (req : Request)
    (hct : getHeader req.headers "content-type" = some CONTENT_TYPES.TEXT) :
    (req.body ≠ "" →
      BodyParser.parse (requestInit req)
        = .ok { requestInit req with payload := some (.str req.body) })
    ∧ (req.body = "" →
      BodyParser.parse (requestInit req) = .ok (requestInit req)
      ∧ (requestInit req).payload = none) := by
  have hdisp : BodyParser.parse (requestInit req)
      = BodyParser.parseText (requestInit req) := by
    unfold BodyParser.parse
    rw [show getHeader (requestInit req).headers "content-type"
        = getHeader req.headers "content-type" from rfl, hct]
    rfl
  constructor
  · intro hb
    rw [hdisp]
    unfold BodyParser.parseText
    rw [show (requestInit req).body = req.body from rfl, if_neg (by simp [hb])]
    rfl
  · intro hb
    refine ⟨?_, rfl⟩
    rw [hdisp]
    unfold BodyParser.parseText
    rw [show (requestInit req).body = req.body from rfl, if_pos (by simp [hb])]

/-- C7: for every request with an empty body and no content-type header,
the Body Parser stage completes without error and leaves the request
context's payload unset (the none of the Option, not an empty string). -/
theorem payload_unset_empty_body (req : Request)
    (hct : getHeader req.headers "content-type" = none) (hbody : req.body = "") :
    BodyParser.parse (requestInit req) = .ok (requestInit req)
    ∧ (requestInit req).payload = none := by
  refine ⟨?_, rfl⟩
  unfold BodyParser.parse BodyParser.parseJSON
  rw [show getHeader (requestInit req).headers "content-type"
      = getHeader req.headers "content-type" from rfl, hct]
  rw [show (requestInit req).body = req.body from rfl]
  simp [hbody, CONTENT_TYPES.TEXT]
  intro hfalse
  exact absurd hfalse (by decide)

/-- C8: every error raised during body decoding or by a middleware (both
live in the middleware chain) or by a route handler is caught at the top
level of per-request handling and converted uniformly into the single
terminal response with status 500 whose body equals the error's message
text, and the error is routed to the configured logger; nothing is
retried (the run produces exactly this one result). -/
theorem errors_uniform_500 (srv : Server) (req : Request) (e : String) :
    (runMiddlewares srv.middlewares (requestInit req) = .error e →
      handleRequest srv req = ⟨errorResponse e, false, [e]⟩)
    ∧ (∀ (data : Context) (rt : RouteEntry),
        runMiddlewares srv.middlewares (requestInit req) = .ok data →
        findRoute srv data = some rt →
        rt.handler { data with groups := patternExec rt.pattern data.path } = .error e →
        handleRequest srv req = ⟨errorResponse e, true, [e]⟩) := by
  constructor
  · intro hrun
    unfold handleRequest
    rw [hrun]
  · intro data rt hrun hfind hhandler
    unfold handleRequest
    rw [hrun]
    show ((match getHandlerResponse (findRoute srv data) data with
        | Except.error e2 => ⟨errorResponse e2, (findRoute srv data).isSome, [e2]⟩
        | Except.ok hr =>
          match serializeResponse hr with
          | Except.ok resp => ⟨resp, (findRoute srv data).isSome, []⟩
          | Except.error e2 => ⟨errorResponse e2, (findRoute srv data).isSome, [e2]⟩)
        : RunResult) = ⟨errorResponse e, true, [e]⟩
    rw [hfind]
    show ((match rt.handler { data with groups := patternExec rt.pattern data.path } with
        | Except.error e2 => ⟨errorResponse e2, (some rt).isSome, [e2]⟩
        | Except.ok hr =>
          match serializeResponse hr with
          | Except.ok resp => ⟨resp, (some rt).isSome, []⟩
          | Except.error e2 => ⟨errorResponse e2, (some rt).isSome, [e2]⟩)
        : RunResult) = ⟨errorResponse e, true, [e]⟩
    rw [hhandler]
    rfl

/-- C9: for every request whose method-plus-path matches no registered
route, the dispatcher produces the canonical not-found result: status 404,
content type application/json, and an empty body; the route handler flag
stays false and nothing is logged. This is the same outcome whether the
path is registered under another method or not registered at all, since
only the method's own route list is consulted. -/
theorem canonical_not_found (srv : Server) (req : Request) (data : Context)
    (hrun : runMiddlewares srv.middlewares (requestInit req) = .ok data)
    (hnone : ∀ rt ∈ lookupRoutes srv.routes data.method,
      patternTest rt.pattern data.path = false) :
    handleRequest srv req = ⟨⟨404, some CONTENT_TYPES.JSON, [], ""⟩, false, []⟩ := by
  have hfind : findRoute srv data = none := by
    unfold findRoute
    rw [List.find?_eq_none]
    intro rt hrt
    simp [hnone rt hrt]
  unfold handleRequest
  rw [hrun]
  show ((match getHandlerResponse (findRoute srv data) data with
      | Except.error e2 => ⟨errorResponse e2, (findRoute srv data).isSome, [e2]⟩
      | Except.ok hr =>
        match serializeResponse hr with
        | Except.ok resp => ⟨resp, (findRoute srv data).isSome, []⟩
        | Except.error e2 => ⟨errorResponse e2, (findRoute srv data).isSome, [e2]⟩)
      : RunResult) = ⟨⟨404, some CONTENT_TYPES.JSON, [], ""⟩, false, []⟩
  rw [hfind]
  rfl

/-- Writing a header under a different (case-insensitive) name leaves the
value read for a name unchanged. -/
theorem headerValue_setHeader_ne (hs : List (String × String)) (k k0 v0 : String)
    (hne : lowerStr k0 ≠ lowerStr k) :
    headerValue (setHeader hs k0 v0) k = headerValue hs k := by
  induction hs with
  | nil =>
    show (if lowerStr k0 == lowerStr k then some v0 else none) = none
    simp [hne]
  | cons p rest ih =>
    show headerValue
        (if lowerStr p.1 == lowerStr k0 then (k0, v0) :: rest
          else (p.1, p.2) :: setHeader rest k0 v0) k
      = headerValue ((p.1, p.2) :: rest) k
    by_cases hp : lowerStr p.1 = lowerStr k0
    · simp only [hp, beq_self_eq_true, if_true]
      show (if lowerStr k0 == lowerStr k then some v0 else headerValue rest k)
        = (if lowerStr p.1 == lowerStr k then some p.2 else headerValue rest k)
      rw [hp]
      simp [hne]
    · rw [if_neg (by simpa using hp)]
      show (if lowerStr p.1 == lowerStr k then some p.2 else headerValue (setHeader rest k0 v0) k)
        = (if lowerStr p.1 == lowerStr k then some p.2 else headerValue rest k)
      rw [ih]

/-- Applying a list of headers none of which is named (case-insensitively)
like the read name leaves the value read for that name unchanged. -/
theorem headerValue_applyHeaders_ne (kvs : List (String × String))
    (hs : List (String × String)) (k : String)
    (hno : ∀ kv ∈ kvs, lowerStr kv.1 ≠ lowerStr k) :
    headerValue (applyHeaders hs kvs) k = headerValue hs k := by
  induction kvs generalizing hs with
  | nil => rfl
  | cons kv rest ih =>
    show headerValue (applyHeaders (setHeader hs kv.1 kv.2) rest) k = headerValue hs k
    rw [ih (setHeader hs kv.1 kv.2) (fun x hx => hno x (List.mem_cons_of_mem kv hx)),
      headerValue_setHeader_ne hs k kv.1 kv.2 (hno kv (List.mem_cons_self kv rest))]

/-- C10: the Response Serializer applies its defaults by truthiness, not
by absence: a falsy status code (absent, null — both the none of the
Option — or zero) produces status 200, and a falsy content type (absent
or the empty string) makes the serializer's content-type write the JSON
content type; no handler result can make the serializer emit status 0.
The original claim's further conclusion — that no handler can make the
framework emit an empty content-type header — is false of the code: the
handler's headers are applied through `setHeader` after the content-type
write, so the emitted content-type header equals the truthy default (and
in particular is neither empty nor missing) exactly when no handler header
is itself named content-type; such a header overwrites the default, the
empty string included. -/
theorem serializer_truthy_defaults (hr : Option HandlerResult) (resp : Response)
    (h : serializeResponse hr = .ok resp) :
    ((statusCodeOf hr = none ∨ statusCodeOf hr = some 0) → resp.statusCode = 200)
    ∧ ((contentTypeOf hr = none ∨ contentTypeOf hr = some "") →
        contentTypeOrDefault (contentTypeOf hr) = CONTENT_TYPES.JSON)
    ∧ resp.statusCode ≠ 0
    ∧ ((∀ kv ∈ headersOf hr, lowerStr kv.1 ≠ "content-type") →
        resp.contentType = some (contentTypeOrDefault (contentTypeOf hr))
        ∧ resp.contentType ≠ some "" ∧ resp.contentType ≠ none) := by
  have hfields : resp.statusCode = statusOrDefault (statusCodeOf hr)
      ∧ resp.contentType = headerValue
          (applyHeaders [("Content-Type", contentTypeOrDefault (contentTypeOf hr))]
            (headersOf hr)) "content-type" := by
    unfold serializeResponse at h
    simp only [] at h
    split at h
    · injection h with h2
      rw [← h2]
      exact ⟨rfl, rfl⟩
    · split at h
      · injection h with h2
        rw [← h2]
        exact ⟨rfl, rfl⟩
      · injection h with h2
        rw [← h2]
        exact ⟨rfl, rfl⟩
      · exact absurd h (by simp)
  have hstatus_ne : statusOrDefault (statusCodeOf hr) ≠ 0 := by
    unfold statusOrDefault
    cases statusCodeOf hr with
    | none => simp
    | some n =>
      by_cases hn : n = 0
      · simp [hn]
      · simp [hn]
  have hct_ne : contentTypeOrDefault (contentTypeOf hr) ≠ "" := by
    unfold contentTypeOrDefault
    cases contentTypeOf hr with
    | none => simp [CONTENT_TYPES.JSON]
    | some s =>
      by_cases hs : s = ""
      · simp [hs, CONTENT_TYPES.JSON]
      · simp [hs]
  refine ⟨?_, ?_, ?_, ?_⟩
  · rintro (hsc | hsc) <;> rw [hfields.1, hsc] <;> rfl
  · rintro (hc | hc) <;> rw [hc] <;> rfl
  · rw [hfields.1]
    exact hstatus_ne
  · intro hno
    have hval : resp.contentType = some (contentTypeOrDefault (contentTypeOf hr)) := by
      rw [hfields.2,
        headerValue_applyHeaders_ne (headersOf hr)
          [("Content-Type", contentTypeOrDefault (contentTypeOf hr))] "content-type"
          (fun kv hkv => by
            rw [show lowerStr "content-type" = "content-type" from rfl]
            exact hno kv hkv)]
      rfl
    refine ⟨hval, ?_, ?_⟩
    · rw [hval]
      intro heq
      injection heq with heq2
      exact hct_ne heq2
    · rw [hval]
      simp

/-- Counterexample to C10 as originally stated: a route handler whose
result carries a headers entry named Content-Type with the empty value
makes the framework emit an empty content-type header — the entry,
applied through `setHeader` after the content-type write, overwrites the
serializer's default — while the handler is invoked and nothing errs. -/
theorem empty_content_type_emitted :
    handleRequest
      (addHandler initServer "hdr" "GET"
        (fun _ => Except.ok (some { headers := [("Content-Type", "")] })))
      ⟨"/hdr", "GET", [], ""⟩
      = ⟨⟨200, some "", [], ""⟩, true, []⟩ := rfl

/-! ## Witnesses: each claim theorem applied at a concrete input -/

/-- Witness for C1: an unregistered server and the body text x, which is
not JSON. -/
theorem json_parse_failure_aborts_witness :
    handleRequest (applyOps initServer []) ⟨"/json", "POST", [], "x"⟩
      = ⟨errorResponse "Unexpected token in JSON", false, ["Unexpected token in JSON"]⟩ :=
  json_parse_failure_aborts [] ⟨"/json", "POST", [], "x"⟩ "Unexpected token in JSON"
    (Or.inr rfl) (by decide) rfl

/-- Witness for C3: a handler result carrying a small JSON object. -/
theorem serializer_json_roundtrip_witness :
    ∃ resp, serializeResponse (some ({ contentType := some CONTENT_TYPES.JSON, payload := some (Json.obj (.cons "hello" (.str "world") .nil)) } : HandlerResult))
        = .ok resp
      ∧ (∀ X, ({ contentType := some CONTENT_TYPES.JSON, payload := some (Json.obj (.cons "hello" (.str "world") .nil)) } : HandlerResult).payload = some X → X.wf = true →
          jsonParse resp.body = .ok X)
      ∧ (({ contentType := some CONTENT_TYPES.JSON, payload := some (Json.obj (.cons "hello" (.str "world") .nil)) } : HandlerResult).payload = none → resp.body = "") :=
  serializer_json_roundtrip _ rfl

/-- Witness for C4: a parameterized route registered first and a static
route registered second, both matching the request path. -/
theorem lifo_routing_witness :
    findRoute (addHandler (addHandler initServer "echo/:id" "get"
        (fun _ => Except.ok none))
        "echo/static" "GET" (fun _ => Except.ok (some { payload := some (.str "static") })))
      ⟨"/echo/static", "GET", [], "", none, none⟩
      = some ⟨compilePattern (normalizePath "echo/static"),
          fun _ => Except.ok (some { payload := some (.str "static") })⟩
    ∧ getHandlerResponse
        (findRoute (addHandler (addHandler initServer "echo/:id" "get"
          (fun _ => Except.ok none))
          "echo/static" "GET"
          (fun _ => Except.ok (some { payload := some (.str "static") })))
        ⟨"/echo/static", "GET", [], "", none, none⟩)
        ⟨"/echo/static", "GET", [], "", none, none⟩
      = (fun _ => Except.ok (some { payload := some (.str "static") }))
          (⟨"/echo/static", "GET", [], "", none,
            patternExec (compilePattern (normalizePath "echo/static"))
              "/echo/static"⟩ : Context) :=
  lifo_routing initServer "echo/:id" "get" "echo/static" "GET"
    (fun _ => Except.ok none)
    (fun _ => Except.ok (some { payload := some (.str "static") }))
    ⟨"/echo/static", "GET", [], "", none, none⟩
    (by decide) (by decide) (by decide) (by decide)

/-- Witness for C5: the template with one parameter segment and a matching
two-segment path. -/
theorem path_matching_exact_witness :
    (litOnly (compilePattern "/echo/:id") →
      (patternTest (compilePattern "/echo/:id") "/echo/123" = true ↔
        "/echo/123" = "/echo/:id"))
    ∧ (patternTest (compilePattern "/echo/:id") "/echo/123" = true ↔
        ((compilePattern "/echo/:id").length
            = (splitSegs (dropSlash ("/echo/123" : String).data)).length ∧
          ∀ i (hi : i < (compilePattern "/echo/:id").length)
            (hj : i < (splitSegs (dropSlash ("/echo/123" : String).data)).length),
            (∀ s, (compilePattern "/echo/:id")[i] = .lit s →
              (splitSegs (dropSlash ("/echo/123" : String).data))[i] = s)
            ∧ (∀ n, (compilePattern "/echo/:id")[i] = .param n →
                (splitSegs (dropSlash ("/echo/123" : String).data))[i] ≠ "")))
    ∧ (∀ g, patternExec (compilePattern "/echo/:id") "/echo/123" = some g →
        g.map Prod.fst = paramNames (compilePattern "/echo/:id")
        ∧ (∀ pr ∈ g, pr.2 ≠ "")
        ∧ substSegs (compilePattern "/echo/:id") g
            = splitSegs (dropSlash ("/echo/123" : String).data)) :=
  path_matching_exact "/echo/:id" "/echo/123" rfl rfl

/-- Witness for C6: a request with the plain-text content type. -/
theorem text_payload_verbatim_witness :
    ((("Hello, World!" : String) ≠ "") →
      BodyParser.parse (requestInit ⟨"/text", "POST",
          [("content-type", "text/plain")], "Hello, World!"⟩)
        = .ok { requestInit ⟨"/text", "POST",
            [("content-type", "text/plain")], "Hello, World!"⟩ with
            payload := some (.str "Hello, World!") })
    ∧ ((("Hello, World!" : String) = "") →
      BodyParser.parse (requestInit ⟨"/text", "POST",
          [("content-type", "text/plain")], "Hello, World!"⟩)
        = .ok (requestInit ⟨"/text", "POST",
            [("content-type", "text/plain")], "Hello, World!"⟩)
      ∧ (requestInit ⟨"/text", "POST",
          [("content-type", "text/plain")], "Hello, World!"⟩).payload = none) :=
  text_payload_verbatim ⟨"/text", "POST", [("content-type", "text/plain")], "Hello, World!"⟩
    rfl

/-- Witness for C7: an empty body and no content-type header. -/
theorem payload_unset_empty_body_witness :
    BodyParser.parse (requestInit ⟨"/", "GET", [], ""⟩)
      = .ok (requestInit ⟨"/", "GET", [], ""⟩)
    ∧ (requestInit ⟨"/", "GET", [], ""⟩).payload = none :=
  payload_unset_empty_body ⟨"/", "GET", [], ""⟩ rfl rfl

/-- Witness for C8: a registered middleware that throws. -/
theorem errors_uniform_500_witness :
    handleRequest (useMiddleware initServer (fun _ => Except.error "boom"))
      ⟨"/any", "GET", [], ""⟩
      = ⟨errorResponse "boom", false, ["boom"]⟩ :=
  (errors_uniform_500 (useMiddleware initServer (fun _ => Except.error "boom"))
    ⟨"/any", "GET", [], ""⟩ "boom").1 rfl

/-- Witness for C9: the path is registered, but under another method. -/
theorem canonical_not_found_witness :
    handleRequest (addHandler initServer "echo" "POST" (fun _ => Except.ok none))
      ⟨"/echo", "GET", [], ""⟩
      = ⟨⟨404, some CONTENT_TYPES.JSON, [], ""⟩, false, []⟩ :=
  canonical_not_found (addHandler initServer "echo" "POST" (fun _ => Except.ok none))
    ⟨"/echo", "GET", [], ""⟩ (requestInit ⟨"/echo", "GET", [], ""⟩) rfl
    (by
      intro rt hrt
      rw [show lookupRoutes
          (addHandler initServer "echo" "POST" (fun _ => Except.ok none)).routes
          (requestInit (⟨"/echo", "GET", [], ""⟩ : Request)).method = [] from rfl] at hrt
      exact absurd hrt (List.not_mem_nil rt))

/-- Witness for C10: a handler result with status code zero, an empty
content type and no headers of its own. -/
theorem serializer_truthy_defaults_witness :
    ((statusCodeOf (some { statusCode := some 0, contentType := some "" }) = none
        ∨ statusCodeOf (some { statusCode := some 0, contentType := some "" }) = some 0) →
      (⟨200, some CONTENT_TYPES.JSON, [], ""⟩ : Response).statusCode = 200)
    ∧ ((contentTypeOf (some { statusCode := some 0, contentType := some "" }) = none
        ∨ contentTypeOf (some { statusCode := some 0, contentType := some "" }) = some "") →
      contentTypeOrDefault (contentTypeOf (some { statusCode := some 0, contentType := some "" }))
        = CONTENT_TYPES.JSON)
    ∧ (⟨200, some CONTENT_TYPES.JSON, [], ""⟩ : Response).statusCode ≠ 0
    ∧ ((∀ kv ∈ headersOf (some { statusCode := some 0, contentType := some "" }),
          lowerStr kv.1 ≠ "content-type") →
        (⟨200, some CONTENT_TYPES.JSON, [], ""⟩ : Response).contentType
          = some (contentTypeOrDefault (contentTypeOf (some { statusCode := some 0, contentType := some "" })))
        ∧ (⟨200, some CONTENT_TYPES.JSON, [], ""⟩ : Response).contentType ≠ some ""
        ∧ (⟨200, some CONTENT_TYPES.JSON, [], ""⟩ : Response).contentType ≠ none) :=
  serializer_truthy_defaults (some { statusCode := some 0, contentType := some "" })
    ⟨200, some CONTENT_TYPES.JSON, [], ""⟩ rfl

end Yahf
